import Mathlib

set_option maxHeartbeats 4000000

namespace OnnxPeephole

/- Shallow embedding of torch/csrc/jit/passes/onnx/peephole.cpp.
   Pure equivalence reasoners first, then the graph IR and the rewrite rules. -/

/-- isNopTranspose from peephole.cpp: a permutation is a no-op iff perm[i] == i for all i. -/
def isNopTranspose (perm : List Int) : Bool :=
  (List.range perm.length).all (fun i => perm.getD i 0 == (i : Int))

/-- composeTransposes from peephole.cpp: ret[i] = t2[t1[i]]. -/
def composeTransposes (t1 t2 : List Int) : List Int :=
  t1.map (fun i => t2.getD i.toNat 0)

/-- The JIT_ASSERT preconditions inside composeTransposes (equal sizes, indices in range);
    violating them is a fatal error in the source. -/
def composeOk (t1 t2 : List Int) : Bool :=
  t1.length == t2.length &&
  t1.all (fun i =>
    decide (0 ≤ i) && decide (i < (t2.length : Int)) &&
    decide (t2.getD i.toNat 0 < (t2.length : Int)))

/-- Indexing a size list with an int64_t index, as the C++ loops do. -/
def idx (l : List Int) (i : Int) : Int := l.getD i.toNat 0

/-- First while loop of fusibleExpandTo: advance from_dim_start over leading size-1 dims. -/
def trimStart (l : List Int) (i : Int) : Int :=
  if h : i < (l.length : Int) ∧ idx l i = 1 then trimStart l (i + 1) else i
termination_by ((l.length : Int) - i).toNat
decreasing_by omega

/-- Second while loop of fusibleExpandTo: retreat from_dim_end over trailing size-1 dims,
    never moving past from_dim_start. -/
def trimEnd (l : List Int) (s j : Int) : Int :=
  if h : s < j ∧ idx l j = 1 then trimEnd l s (j - 1) else j
termination_by (j - s).toNat
decreasing_by omega

/-- Trailing-alignment loop of fusibleExpandTo: walk f down from from_dim_end and ti down
    from to.size()-1, stopping at a mismatch.  Returns (trailing_expand, f, ti). -/
def trailingLoop (l t : List Int) (s : Int) (f ti : Int) : Bool × Int × Int :=
  if h : s ≤ f ∧ 0 ≤ ti then
    if idx l f ≠ idx t ti then (false, f, ti)
    else trailingLoop l t s (f - 1) (ti - 1)
  else (true, f, ti)
termination_by (f + 1 - s).toNat
decreasing_by omega

/-- Leading-alignment loop of fusibleExpandTo: walk f up from from_dim_start and ti up
    from 0, stopping at a mismatch.  Returns (leading_expand, f, ti). -/
def leadingLoop (l t : List Int) (e : Int) (f ti : Int) : Bool × Int × Int :=
  if h : f ≤ e ∧ ti < (t.length : Int) then
    if idx l f ≠ idx t ti then (false, f, ti)
    else leadingLoop l t e (f + 1) (ti + 1)
  else (true, f, ti)
termination_by (e + 1 - f).toNat
decreasing_by omega

/-- fusibleExpandTo from peephole.cpp: whether expanding shape l to shape t is expressible
    as a Caffe2-style one-directional broadcast, and the axis attribute to emit. -/
def fusibleExpandTo (l t : List Int) : Bool × Option Nat :=
  if l.length > t.length then (false, none)
  else
    let s := trimStart l 0
    let e := trimEnd l s ((l.length : Int) - 1)
    let r1 := trailingLoop l t s e ((t.length : Int) - 1)
    if r1.1 = true ∧ r1.2.1 ≤ s then (true, none)
    else
      let r2 := leadingLoop l t e s 0
      if r2.1 = true ∧ r2.2.1 ≥ e then (true, some 0)
      else (false, none)

/-- Spec-side core region: l with leading and trailing size-1 dimensions trimmed,
    following the spec's words for the Broadcast-Fusability reasoner. -/
def coreOf (l : List Int) : List Int :=
  ((l.dropWhile (fun x => x == 1)).reverse.dropWhile (fun x => x == 1)).reverse

/-- Spec-side Broadcast-Fusability, following the spec's words: trailing alignment means
    the trimmed core is a suffix of t; leading alignment means it is a prefix of t. -/
def fusibleExpandToSpec (l t : List Int) : Bool × Option Nat :=
  if l.length ≤ t.length then
    if (coreOf l).isSuffixOf t then (true, none)
    else if (coreOf l).isPrefixOf t then (true, some 0)
    else (false, none)
  else (false, none)

/-- The identity permutation of length n. -/
def idPerm (n : Nat) : List Int := (List.range n).map (fun i => Int.ofNat i)

/-- A valid permutation of 0..N-1 in the sense of the spec. -/
def isValidPerm (p : List Int) : Prop := p.Perm (idPerm p.length)

instance (p : List Int) : Decidable (isValidPerm p) := by
  unfold isValidPerm; infer_instance


/- Graph IR: shallow embedding of the JIT Node/Value/Graph structure used by the passes. -/

inductive Kind where
  | Add | Div | Mul | Pow | Sub | Gemm
  | Transpose | Expand | Constant | Slice | Shape | Gather | Unsqueeze | Concat | ConstantFill
  | RNN | LSTM | GRU
  | PackPadded | PadPacked
  | Param
  | Other : Nat → Kind
deriving DecidableEq, Repr

inductive VRef where
  | gin : Nat → VRef
  | out : Nat → Nat → VRef
deriving DecidableEq, Repr

structure Node where
  kind : Kind
  inputs : List VRef := []
  nOutputs : Nat := 1
  outMeta : List (Option (List Int)) := [none]
  perm : Option (List Int) := none
  broadcast : Option Int := none
  axis : Option Int := none
  axes : Option (List Int) := none
  hidden_size : Option Int := none
  direction : Option String := none
  input_as_shape : Option Int := none
  tval : Option (List Int) := none
deriving DecidableEq, Repr

structure Graph where
  nodes : List (Nat × Node) := []
  ginMeta : List (Option (List Int)) := []
  fresh : Nat := 0
deriving DecidableEq, Repr

def Graph.find (g : Graph) (nid : Nat) : Option Node :=
  (g.nodes.find? (fun p => p.1 == nid)).map (fun p => p.2)

def Graph.ids (g : Graph) : List Nat := g.nodes.map (fun p => p.1)

def Node.mapInputs (f : VRef → VRef) (n : Node) : Node := { n with inputs := n.inputs.map f }

def subst (old new r : VRef) : VRef := if r = old then new else r

def Graph.replaceAllUses (g : Graph) (old new : VRef) : Graph :=
  { g with nodes := g.nodes.map (fun p => (p.1, p.2.mapInputs (subst old new))) }

def Graph.modifyNode (g : Graph) (nid : Nat) (f : Node → Node) : Graph :=
  { g with nodes := g.nodes.map (fun p => if p.1 = nid then (p.1, f p.2) else p) }

def Graph.destroy (g : Graph) (nid : Nat) : Graph :=
  { g with nodes := g.nodes.filter (fun p => p.1 ≠ nid) }

def Graph.insertBeforeId (g : Graph) (anchor : Nat) (nid : Nat) (n : Node) : Graph :=
  { g with nodes := g.nodes.takeWhile (fun p => p.1 ≠ anchor) ++
      (nid, n) :: g.nodes.dropWhile (fun p => p.1 ≠ anchor) }

def Graph.insertAfterId (g : Graph) (anchor : Nat) (nid : Nat) (n : Node) : Graph :=
  { g with nodes := g.nodes.takeWhile (fun p => p.1 ≠ anchor) ++
      (match g.nodes.dropWhile (fun p => p.1 ≠ anchor) with
       | [] => [(nid, n)]
       | a :: rest => a :: (nid, n) :: rest) }

/-- The use-list of a Value: all (consumer node id, input position) pairs reading it,
    in graph order. -/
def Graph.usesOf (g : Graph) (v : VRef) : List (Nat × Nat) :=
  g.nodes.flatMap (fun p =>
    ((List.range p.2.inputs.length).filter (fun i => p.2.inputs.get? i = some v)).map
      (fun i => (p.1, i)))

def Graph.inputAt (g : Graph) (c pos : Nat) : Option VRef :=
  (g.find c).bind (fun n => n.inputs.get? pos)

/-- The shape of the PackPadded node that pushPackingPastRnn synthesizes after the
    recurrent node, once its inputs are wired. -/
def pushedPackNode (rnnId : Nat) (len : VRef) : Node :=
  { kind := .PackPadded, inputs := [.out rnnId 0, len], nOutputs := 2, outMeta := [none, none] }

/-- Every node-output reference in r stays below the fresh-id bound f. -/
def refBound (f : Nat) : VRef → Bool
  | .gin _ => true
  | .out j _ => j < f

/-- No input of n is an output of the node with id nid. -/
def noInputFrom (nid : Nat) (n : Node) : Bool :=
  n.inputs.all (fun r => match r with | .out j _ => decide (j ≠ nid) | .gin _ => true)


/-- Shape/dtype metadata attached to a Value; none models a non-tensor type. -/
def Graph.metaOf (g : Graph) : VRef → Option (List Int)
  | .gin i => g.ginMeta.getD i none
  | .out pid k =>
    match g.find pid with
    | some p => p.outMeta.getD k none
    | none => none

/-- The producer node kind of a Value; graph inputs are produced by the Param node. -/
def Graph.refKind (g : Graph) : VRef → Kind
  | .gin _ => .Param
  | .out pid _ =>
    match g.find pid with
    | some p => p.kind
    | none => .Other 0

/-- The output value list of a Value's producer node (the Param pseudo-node for
    graph inputs), used by Node::replaceAllUsesWith. -/
def Graph.refNodeOutputs (g : Graph) : VRef → List VRef
  | .gin _ => (List.range g.ginMeta.length).map VRef.gin
  | .out pid _ =>
    match g.find pid with
    | some p => (List.range p.nOutputs).map (VRef.out pid)
    | none => []

/-- Node::replaceAllUsesWith(Node*): JIT_ASSERTs equal output arity, then pairwise
    retargets every use of each output. -/
def Graph.replaceAllUsesWithNode (g : Graph) (nid : Nat) (n : Node) (target : VRef) :
    Except String Graph :=
  let touts := g.refNodeOutputs target
  if n.nOutputs = touts.length then
    .ok ((List.range n.nOutputs).foldl
      (fun h i => h.replaceAllUses (.out nid i) (touts.getD i (.gin 0))) g)
  else .error "replaceAllUsesWith: output arity mismatch"

/-- isRNN from peephole.cpp. -/
def isRNNKind : Kind → Bool
  | .RNN | .LSTM | .GRU => true
  | _ => false

/-- isBroadcasting from peephole.cpp. -/
def isBroadcastingKind : Kind → Bool
  | .Add | .Div | .Mul | .Pow | .Sub | .Gemm => true
  | _ => false

/-- Loop body of eliminateNopTranspose for the node with id nid. -/
def eliminateNopTransposeStep (g : Graph) (nid : Nat) : Except String Graph :=
  match g.find nid with
  | none => .ok g
  | some n =>
    if n.kind = .Transpose then
      match n.perm with
      | none => .error "required attribute perm is missing"
      | some p =>
        if isNopTranspose p then
          match n.inputs with
          | [r] =>
            match g.replaceAllUsesWithNode nid n r with
            | .ok g1 => .ok (g1.destroy nid)
            | .error e => .error e
          | _ => .error "expected exactly one input"
        else .ok g
    else .ok g

/-- eliminateNopTranspose from peephole.cpp: safe mutating iteration over the node list,
    deleting each identity-permutation transpose as it is visited. -/
def eliminateNopTranspose (g : Graph) : Except String Graph :=
  g.ids.foldlM eliminateNopTransposeStep g


/-- Loop body of fuseConsecutiveTransposes for the node with id nid. -/
def fuseConsecutiveTransposesStep (g : Graph) (nid : Nat) : Except String Graph :=
  match g.find nid with
  | none => .ok g
  | some n =>
    if n.kind = .Transpose then
      match n.inputs with
      | [origInput] =>
        match origInput with
        | .gin _ => .ok g
        | .out pid _ =>
          match g.find pid with
          | none => .ok g
          | some p =>
            if p.kind = .Transpose then
              match p.perm, n.perm with
              | some pp, some np =>
                if composeOk pp np then
                  match p.inputs with
                  | [pr] =>
                    let g1 := g.modifyNode nid (fun m =>
                      { m with perm := some (composeTransposes pp np) })
                    let g2 := g1.modifyNode nid (fun m =>
                      { m with inputs := m.inputs.set 0 pr })
                    if (g2.usesOf origInput).isEmpty then .ok (g2.destroy pid) else .ok g2
                  | _ => .error "expected exactly one input"
                else .error "composeTransposes precondition violated"
              | _, _ => .error "required attribute perm is missing"
            else .ok g
      | _ => .error "expected exactly one input"
    else .ok g

/-- fuseConsecutiveTransposes from peephole.cpp. -/
def fuseConsecutiveTransposes (g : Graph) : Except String Graph :=
  g.ids.foldlM fuseConsecutiveTransposesStep g

/-- Loop body of fuseBroadcast for the node with id nid. -/
def fuseBroadcastStep (g : Graph) (nid : Nat) : Except String Graph :=
  match g.find nid with
  | none => .ok g
  | some n =>
    if isBroadcastingKind n.kind then
      if n.broadcast.getD 0 ≠ 0 then .ok g
      else if n.axis.isSome then .error "JIT_ASSERT: node already has an axis attribute"
      else
        match n.inputs.getLast? with
        | none => .error "input index out of range"
        | some expandedRhs =>
          match expandedRhs with
          | .gin _ => .ok g
          | .out pid _ =>
            match g.find pid with
            | none => .ok g
            | some p =>
              if p.kind = .Expand then
                match p.inputs with
                | [unexpandedRhs] =>
                  match g.metaOf unexpandedRhs with
                  | none => .ok g
                  | some fromSizes =>
                    if p.nOutputs ≠ 1 then .error "expected exactly one output"
                    else
                      match p.outMeta.getD 0 none with
                      | none => .error "expected TensorType"
                      | some toSizes =>
                        let r := fusibleExpandTo fromSizes toSizes
                        if r.1 then
                          let g1 := g.modifyNode nid (fun m =>
                            { m with
                              inputs := m.inputs.set (m.inputs.length - 1) unexpandedRhs,
                              broadcast := some 1,
                              axis := match r.2 with
                                      | some a => some (a : Int)
                                      | none => m.axis })
                          if (List.range p.nOutputs).all
                              (fun k => (g1.usesOf (.out pid k)).isEmpty) then
                            .ok (g1.destroy pid)
                          else .ok g1
                        else .ok g
                | _ => .error "expected exactly one input"
              else .ok g
    else .ok g

/-- fuseBroadcast from peephole.cpp. -/
def fuseBroadcast (g : Graph) : Except String Graph :=
  g.ids.foldlM fuseBroadcastStep g

/-- Loop body of pushPackingPastRnn for the node with id nid. -/
def pushPackingPastRnnStep (g : Graph) (nid : Nat) : Except String Graph :=
  match g.find nid with
  | none => .ok g
  | some n =>
    if n.kind = .PackPadded then
      if (g.usesOf (.out nid 0)).length ≠ 1 then .ok g
      else
        match (g.usesOf (.out nid 0)).head? with
        | none => .ok g
        | some u =>
          match g.find u.1 with
          | none => .error "user node not found"
          | some rnn =>
            if isRNNKind rnn.kind then
              if n.inputs.length < 2 ∨ n.nOutputs < 2 then .error "index out of range"
              else
                let in0 := n.inputs.getD 0 (.gin 0)
                let g1 := g.replaceAllUses (.out nid 0) in0
                match (g1.usesOf (.out nid 1)).head? with
                | none => .error "replaceFirstUseWith: value has no uses"
                | some w =>
                  let in1a := ((g1.find nid).map
                    (fun m => m.inputs.getD 1 (.gin 0))).getD (.gin 0)
                  let g2 := g1.modifyNode w.1 (fun m =>
                    { m with inputs := m.inputs.set w.2 in1a })
                  let newId := g2.fresh
                  let newPack : Node :=
                    { kind := .PackPadded, inputs := [], nOutputs := 2, outMeta := [none, none] }
                  let g3 := { (g2.insertAfterId u.1 newId newPack) with fresh := g2.fresh + 1 }
                  let g4 := g3.replaceAllUses (.out u.1 0) (.out newId 0)
                  let g5 := g4.replaceAllUses (.out nid 1) (.out newId 1)
                  let in1b := ((g5.find nid).map
                    (fun m => m.inputs.getD 1 (.gin 0))).getD (.gin 0)
                  let g6 := g5.modifyNode newId (fun m =>
                    { m with inputs := m.inputs ++ [.out u.1 0, in1b] })
                  .ok (g6.destroy nid)
            else .ok g
    else .ok g

/-- fixDefaultRNNState from peephole.cpp: materialize a dynamic-batch-size default
    state for the recurrent node nid at the given input position. -/
def fixDefaultRNNState (g : Graph) (nid : Nat) (inputIndex : Nat) : Except String Graph :=
  match g.find nid with
  | none => .ok g
  | some n =>
    match n.inputs.get? inputIndex with
    | none => .error "input index out of range"
    | some initialState =>
      let needs : Except String Bool :=
        if g.refKind initialState = .Constant then .ok true
        else if g.refKind initialState = .Slice then
          match initialState with
          | .out pid _ =>
            match g.find pid with
            | some p =>
              match p.inputs.get? 0 with
              | some r0 => .ok (g.refKind r0 = .Constant)
              | none => .error "input index out of range"
            | none => .ok false
          | .gin _ => .ok false
        else .ok false
      match needs with
      | .error e => .error e
      | .ok false => .ok g
      | .ok true =>
        match n.hidden_size with
        | none => .error "required attribute hidden_size is missing"
        | some hs =>
          let b := g.fresh
          let numDir : Int :=
            if n.direction = some "bidirectional" then 2 else 1
          let shapeOfInput : Node :=
            { kind := .Shape, inputs := [n.inputs.getD 0 (.gin 0)] }
          let gatherIndices : Node :=
            { kind := .Constant, tval := some [1] }
          let batchSize : Node :=
            { kind := .Gather, inputs := [.out b 0, .out (b + 1) 0] }
          let unsqueezedBatchSize : Node :=
            { kind := .Unsqueeze, inputs := [.out (b + 2) 0], axes := some [0] }
          let hiddenSize : Node :=
            { kind := .Constant, tval := some [hs] }
          let numDirections : Node :=
            { kind := .Constant, tval := some [numDir] }
          let unsqueezedNumDirections : Node :=
            { kind := .Unsqueeze, inputs := [.out (b + 5) 0], axes := some [0] }
          let concatedDims : Node :=
            { kind := .Concat, axis := some 0,
              inputs := [.out (b + 6) 0, .out (b + 3) 0, .out (b + 4) 0] }
          let constantFill : Node :=
            { kind := .ConstantFill, input_as_shape := some 1, inputs := [.out (b + 7) 0] }
          let g1 := (g.insertBeforeId nid b shapeOfInput)
          let g2 := (g1.insertBeforeId nid (b + 1) gatherIndices)
          let g3 := (g2.insertBeforeId nid (b + 2) batchSize)
          let g4 := (g3.insertBeforeId nid (b + 3) unsqueezedBatchSize)
          let g5 := (g4.insertBeforeId nid (b + 4) hiddenSize)
          let g6 := (g5.insertBeforeId nid (b + 5) numDirections)
          let g7 := (g6.insertBeforeId nid (b + 6) unsqueezedNumDirections)
          let g8 := (g7.insertBeforeId nid (b + 7) concatedDims)
          let g9 := { (g8.insertBeforeId nid (b + 8) constantFill) with fresh := b + 9 }
          let g10 := g9.modifyNode nid (fun m =>
            { m with inputs := m.inputs.set inputIndex (.out (b + 8) 0) })
          if (g10.usesOf initialState).isEmpty then
            match initialState with
            | .out pid _ => .ok (g10.destroy pid)
            | .gin _ => .ok g10
          else .ok g10

/-- Loop body of fixDefaultRnnHiddenState for the node with id nid. -/
def fixDefaultRnnHiddenStateStep (g : Graph) (nid : Nat) : Except String Graph :=
  match g.find nid with
  | none => .ok g
  | some n =>
    if isRNNKind n.kind then
      if n.inputs.length < 6 then .ok g
      else fixDefaultRNNState g nid 5
    else .ok g

/-- fixDefaultRnnHiddenState from peephole.cpp. -/
def fixDefaultRnnHiddenState (g : Graph) : Except String Graph :=
  g.ids.foldlM fixDefaultRnnHiddenStateStep g

/-- Loop body of fixDefaultLstmCellState for the node with id nid. -/
def fixDefaultLstmCellStateStep (g : Graph) (nid : Nat) : Except String Graph :=
  match g.find nid with
  | none => .ok g
  | some n =>
    if n.kind = .LSTM then
      if n.inputs.length < 7 then .ok g
      else fixDefaultRNNState g nid 6
    else .ok g

/-- fixDefaultLstmCellState from peephole.cpp. -/
def fixDefaultLstmCellState (g : Graph) : Except String Graph :=
  g.ids.foldlM fixDefaultLstmCellStateStep g


def nC7prod : Node := { kind := .Other 0 }

def nC7t : Node := { kind := .Transpose, inputs := [.out 0 0], perm := some [0, 1, 2] }

def nC7c : Node := { kind := .Other 1, inputs := [.out 1 0] }

def gC7 : Graph := { nodes := [(0, nC7prod), (1, nC7t), (2, nC7c)], ginMeta := [], fresh := 3 }

def nC9prod : Node := { kind := .Other 0 }

def nC9t : Node := { kind := .Transpose, inputs := [.out 0 0], perm := some [0, 1] }

def nC9c : Node := { kind := .Other 1, inputs := [.out 1 0] }

def gC9 : Graph := { nodes := [(0, nC9prod), (1, nC9t), (2, nC9c)], ginMeta := [], fresh := 3 }

def gC9r : Graph :=
  { nodes := [(0, nC9prod), (2, { kind := .Other 1, inputs := [.out 0 0] })],
    ginMeta := [], fresh := 3 }

def nC5prod : Node := { kind := .Other 0 }

def nC5inner : Node := { kind := .Transpose, inputs := [.out 0 0], perm := some [1, 0, 2] }

def nC5outer : Node := { kind := .Transpose, inputs := [.out 1 0], perm := some [0, 2, 1] }

def nC5c : Node := { kind := .Other 1, inputs := [.out 2 0] }

def gC5 : Graph :=
  { nodes := [(0, nC5prod), (1, nC5inner), (2, nC5outer), (3, nC5c)], ginMeta := [], fresh := 4 }

def nC2prodN : Node := { kind := .Other 0 }

def nC2expN : Node := { kind := .Expand, inputs := [.out 0 0], outMeta := [some [2, 3]] }

def nC2addN : Node := { kind := .Add, inputs := [.gin 0, .out 1 0] }

def gC2skip : Graph :=
  { nodes := [(0, nC2prodN), (1, nC2expN), (2, nC2addN)], ginMeta := [none], fresh := 3 }

def nC2prodE : Node := { kind := .Other 0, outMeta := [some [2]] }

def nC2expE : Node := { kind := .Expand, inputs := [.out 0 0], outMeta := [none] }

def nC2addE : Node := { kind := .Add, inputs := [.gin 0, .out 1 0] }

def gC2err : Graph :=
  { nodes := [(0, nC2prodE), (1, nC2expE), (2, nC2addE)], ginMeta := [none], fresh := 3 }

def nC6const : Node := { kind := .Constant, tval := some [0] }

def nC6rnn : Node :=
  { kind := .RNN, inputs := [.gin 0, .gin 0, .gin 0, .gin 0, .gin 0, .out 0 0],
    hidden_size := some 4 }

def gC6a : Graph := { nodes := [(0, nC6const), (1, nC6rnn)], ginMeta := [none], fresh := 2 }

def nC6lconst : Node := { kind := .Constant, tval := some [0] }

def nC6lstm : Node :=
  { kind := .LSTM, inputs := [.gin 0, .gin 0, .gin 0, .gin 0, .gin 0, .gin 0, .out 0 0],
    hidden_size := some 3 }

def gC6b : Graph := { nodes := [(0, nC6lconst), (1, nC6lstm)], ginMeta := [none], fresh := 2 }

def nC4pack : Node :=
  { kind := .PackPadded, inputs := [.gin 0, .gin 1], nOutputs := 2, outMeta := [none, none] }

def nC4rnn : Node := { kind := .LSTM, inputs := [.out 1 0, .out 1 1], hidden_size := some 2 }

def nC4c : Node := { kind := .Other 1, inputs := [.out 2 0] }

def gC4 : Graph :=
  { nodes := [(1, nC4pack), (2, nC4rnn), (3, nC4c)], ginMeta := [none, none], fresh := 4 }

def nC4m : Node :=
  { kind := .PackPadded, inputs := [.gin 0, .gin 1], nOutputs := 2, outMeta := [none, none] }

def nC4u1 : Node := { kind := .Other 2, inputs := [.out 1 0] }

def nC4u2 : Node := { kind := .Other 3, inputs := [.out 1 0] }

def gC4multi : Graph :=
  { nodes := [(1, nC4m), (2, nC4u1), (3, nC4u2)], ginMeta := [none, none], fresh := 4 }

theorem trimStart_spec (l : List Int) (i : Int) (hi : 0 ≤ i) :
    trimStart l i = i + ((l.drop i.toNat).takeWhile (fun x => x == 1)).length := by
  induction i using trimStart.induct l with
  | case1 i h ih =>
    rw [trimStart, dif_pos h, ih (by omega)]
    have hlt : i.toNat < l.length := by omega
    have hdrop : l.drop i.toNat = l[i.toNat] :: l.drop (i.toNat + 1) :=
      List.drop_eq_getElem_cons hlt
    have hone : l[i.toNat] = 1 := by
      have := h.2
      unfold idx at this
      rwa [List.getD_eq_getElem?_getD, List.getElem?_eq_getElem hlt, Option.getD_some] at this
    have : (i + 1).toNat = i.toNat + 1 := by omega
    rw [this, hdrop, List.takeWhile_cons]
    simp [hone]
    omega
  | case2 i h =>
    rw [trimStart, dif_neg h]
    rcases Classical.em (i < (l.length : Int)) with hlt | hge
    · have hlt' : i.toNat < l.length := by omega
      have hdrop : l.drop i.toNat = l[i.toNat] :: l.drop (i.toNat + 1) :=
        List.drop_eq_getElem_cons hlt'
      have hne : l[i.toNat] ≠ 1 := by
        intro hc
        apply h
        refine ⟨hlt, ?_⟩
        unfold idx
        rw [List.getD_eq_getElem?_getD, List.getElem?_eq_getElem hlt', Option.getD_some, hc]
      rw [hdrop, List.takeWhile_cons]
      simp [hne]
    · have : l.length ≤ i.toNat := by omega
      rw [List.drop_eq_nil_of_le this]
      simp

theorem dropWhile_eq_drop (p : Int → Bool) (l : List Int) :
    l.dropWhile p = l.drop (l.takeWhile p).length := by
  induction l with
  | nil => simp
  | cons a l ih =>
    rw [List.dropWhile_cons, List.takeWhile_cons]
    by_cases hp : p a = true
    · simp [hp, ih]
    · simp [hp]


theorem takeWhile_ones (l : List Int) (i : Nat)
    (h : i < (l.takeWhile (fun x => x == 1)).length) : l.getD i 0 = 1 := by
  induction l generalizing i with
  | nil => simp at h
  | cons a l ih =>
    rw [List.takeWhile_cons] at h
    by_cases hp : (a == 1) = true
    · simp only [hp, if_pos] at h
      match i with
      | 0 => simpa using hp
      | i + 1 =>
        simp only [List.length_cons, Nat.add_lt_add_iff_right] at h
        simpa using ih i h
    · simp [hp] at h

theorem takeWhile_stop (l : List Int)
    (h : (l.takeWhile (fun x => x == 1)).length < l.length) :
    l.getD (l.takeWhile (fun x => x == 1)).length 0 ≠ 1 := by
  induction l with
  | nil => simp at h
  | cons a l ih =>
    rw [List.takeWhile_cons]
    by_cases hp : (a == 1) = true
    · rw [List.takeWhile_cons, if_pos hp] at h
      simp only [List.length_cons, Nat.add_lt_add_iff_right] at h
      simp only [hp, if_pos, List.length_cons]
      simpa using ih h
    · simp only [hp, if_neg, Bool.false_eq_true, not_false_eq_true, List.length_nil]
      simpa using hp

theorem takeWhile_length_eq (xs : List Int) (k : Nat) (hk : k ≤ xs.length)
    (hones : ∀ i : Nat, i < k → xs.getD i 0 = 1)
    (hstop : k = xs.length ∨ xs.getD k 0 ≠ 1) :
    (xs.takeWhile (fun x => x == 1)).length = k := by
  induction xs generalizing k with
  | nil => simp at hk ⊢; omega
  | cons a l ih =>
    match k with
    | 0 =>
      rcases hstop with h | h
      · simp at h
      · simp only [List.getD_cons_zero] at h
        rw [List.takeWhile_cons]
        simp [h]
    | k + 1 =>
      have ha : a = 1 := by simpa using hones 0 (by omega)
      rw [List.takeWhile_cons]
      simp only [ha]
      norm_num
      refine ih k (by simpa using hk) ?_ ?_
      · intro i hi
        simpa using hones (i + 1) (by omega)
      · rcases hstop with h | h
        · left; simpa using h
        · right; simpa using h

theorem trimEnd_le (l : List Int) (s j : Int) : trimEnd l s j ≤ j := by
  induction j using trimEnd.induct l s with
  | case1 j h ih => rw [trimEnd, dif_pos h]; omega
  | case2 j h => rw [trimEnd, dif_neg h]

theorem le_trimEnd (l : List Int) (s j : Int) (h : s ≤ j) : s ≤ trimEnd l s j := by
  induction j using trimEnd.induct l s with
  | case1 j hc ih => rw [trimEnd, dif_pos hc]; exact ih (by omega)
  | case2 j hc => rw [trimEnd, dif_neg hc]; omega

theorem trimEnd_ones (l : List Int) (s j : Int) :
    ∀ i : Int, trimEnd l s j < i → i ≤ j → idx l i = 1 := by
  induction j using trimEnd.induct l s with
  | case1 j hc ih =>
    intro i h1 h2
    rw [trimEnd, dif_pos hc] at h1
    rcases Classical.em (i ≤ j - 1) with hle | hgt
    · exact ih i h1 hle
    · have : i = j := by omega
      rw [this]; exact hc.2
  | case2 j hc =>
    intro i h1 h2
    rw [trimEnd, dif_neg hc] at h1
    omega

theorem trimEnd_stop (l : List Int) (s j : Int) :
    ¬(s < trimEnd l s j ∧ idx l (trimEnd l s j) = 1) := by
  induction j using trimEnd.induct l s with
  | case1 j hc ih => rw [trimEnd, dif_pos hc]; exact ih
  | case2 j hc => rw [trimEnd, dif_neg hc]; exact hc


theorem getD_eq_getElem (l : List Int) (i : Nat) (h : i < l.length) : l.getD i 0 = l[i] := by
  rw [List.getD_eq_getElem?_getD, List.getElem?_eq_getElem h, Option.getD_some]

theorem idx_natCast (l : List Int) (i : Nat) : idx l (i : Int) = l.getD i 0 := by
  unfold idx
  norm_num

theorem trimStart_zero (l : List Int) :
    trimStart l 0 = ((l.takeWhile (fun x => x == 1)).length : Int) := by
  rw [trimStart_spec l 0 (by omega)]
  simp

theorem getD_rev_drop (l : List Int) (sN i : Nat) (h : i < l.length - sN) :
    (l.drop sN).reverse.getD i 0 = l.getD (l.length - 1 - i) 0 := by
  have h1 : i < (l.drop sN).reverse.length := by
    rw [List.length_reverse, List.length_drop]; omega
  have h2 : l.length - 1 - i < l.length := by omega
  rw [getD_eq_getElem _ _ h1, getD_eq_getElem _ _ h2, List.getElem_reverse, List.getElem_drop]
  congr 1
  rw [List.length_drop]
  omega

theorem coreOf_eq (l : List Int) :
    coreOf l = (l.drop (trimStart l 0).toNat).take
      ((trimEnd l (trimStart l 0) ((l.length : Int) - 1) + 1 - trimStart l 0).toNat) := by
  have hs := trimStart_zero l
  set sN := (l.takeWhile (fun x => x == 1)).length with hsN
  have hsle : sN ≤ l.length := by
    have hpr : List.IsPrefix (l.takeWhile (fun x : Int => x == 1)) l :=
      List.takeWhile_prefix _
    exact hpr.length_le
  rw [hs]
  have htn : ((sN : Int)).toNat = sN := by omega
  rw [htn]
  unfold coreOf
  rw [dropWhile_eq_drop _ l, ← hsN]
  set d := l.drop sN with hd
  have hdlen : d.length = l.length - sN := by simp [hd]
  rcases Nat.eq_or_lt_of_le hsle with heq | hlt
  · have : d = [] := by rw [hd, heq]; simp
    rw [this]
    simp
  · set e := trimEnd l (sN : Int) ((l.length : Int) - 1) with he
    have h1 : (sN : Int) ≤ e := le_trimEnd l _ _ (by omega)
    have h2 : e ≤ (l.length : Int) - 1 := trimEnd_le l _ _
    set eN := e.toNat with heNdef
    have heN : e = ((eN : Nat) : Int) := by omega
    have heN1 : sN ≤ eN := by omega
    have heN2 : eN ≤ l.length - 1 := by omega
    have hrevD : ∀ i : Nat, i < l.length - sN →
        d.reverse.getD i 0 = l.getD (l.length - 1 - i) 0 := by
      intro i hi
      rw [hd]
      exact getD_rev_drop l sN i hi
    have hc : (d.reverse.takeWhile (fun x => x == 1)).length = l.length - 1 - eN := by
      apply takeWhile_length_eq
      · rw [List.length_reverse, hdlen]; omega
      · intro i hi
        rw [hrevD i (by omega)]
        have hones := trimEnd_ones l (sN : Int) ((l.length : Int) - 1)
          ((l.length - 1 - i : Nat) : Int) (by omega) (by omega)
        rw [idx_natCast] at hones
        exact hones
      · right
        rw [hrevD (l.length - 1 - eN) (by omega)]
        have hix : l.length - 1 - (l.length - 1 - eN) = eN := by omega
        rw [hix]
        rcases Nat.eq_or_lt_of_le heN1 with hse | hse
        · have hst := takeWhile_stop l (by omega)
          rw [← hse]
          exact hst
        · have hstop := trimEnd_stop l (sN : Int) ((l.length : Int) - 1)
          rw [← he] at hstop
          have hne : idx l e ≠ 1 := fun hcontra => hstop ⟨by omega, hcontra⟩
          rw [heN, idx_natCast] at hne
          exact hne
    rw [dropWhile_eq_drop, hc, List.reverse_drop, List.reverse_reverse, List.length_reverse,
        hdlen]
    congr 1
    omega


theorem trailingLoop_flag_iff (l t : List Int) (s : Int) (f ti : Int) :
    (trailingLoop l t s f ti).1 = true ↔
      ∀ k : Nat, (k : Int) ≤ f - s → (k : Int) ≤ ti → idx l (f - k) = idx t (ti - k) := by
  induction f, ti using trailingLoop.induct l t s with
  | case1 f ti hc hne =>
    rw [trailingLoop, dif_pos hc, if_pos hne]
    simp only [Bool.false_eq_true, false_iff, not_forall]
    refine ⟨0, by omega, by omega, by simpa using hne⟩
  | case2 f ti hc hne ih =>
    rw [trailingLoop, dif_pos hc, if_neg hne]
    rw [ih]
    constructor
    · intro hall k hk1 hk2
      match k with
      | 0 => simpa using Classical.not_not.mp hne
      | k + 1 =>
        have := hall k (by push_cast at hk1 ⊢; omega) (by push_cast at hk2 ⊢; omega)
        have harith1 : f - 1 - (k : Int) = f - ((k + 1 : Nat) : Int) := by push_cast; omega
        have harith2 : ti - 1 - (k : Int) = ti - ((k + 1 : Nat) : Int) := by push_cast; omega
        rwa [harith1, harith2] at this
    · intro hall k hk1 hk2
      have := hall (k + 1) (by push_cast; omega) (by push_cast; omega)
      have harith1 : f - ((k + 1 : Nat) : Int) = f - 1 - (k : Int) := by push_cast; omega
      have harith2 : ti - ((k + 1 : Nat) : Int) = ti - 1 - (k : Int) := by push_cast; omega
      rwa [harith1, harith2] at this
  | case3 f ti hc =>
    rw [trailingLoop, dif_neg hc]
    simp only [true_iff]
    intro k hk1 hk2
    omega


theorem trailingLoop_lockstep (l t : List Int) (s : Int) (f ti : Int) :
    f - (trailingLoop l t s f ti).2.1 = ti - (trailingLoop l t s f ti).2.2 := by
  induction f, ti using trailingLoop.induct l t s with
  | case1 f ti hc hne => rw [trailingLoop, dif_pos hc, if_pos hne]; simp
  | case2 f ti hc hne ih => rw [trailingLoop, dif_pos hc, if_neg hne]; omega
  | case3 f ti hc => rw [trailingLoop, dif_neg hc]; simp

theorem trailingLoop_exit (l t : List Int) (s : Int) (f ti : Int)
    (h : (trailingLoop l t s f ti).1 = true) :
    (trailingLoop l t s f ti).2.1 < s ∨ (trailingLoop l t s f ti).2.2 < 0 := by
  induction f, ti using trailingLoop.induct l t s with
  | case1 f ti hc hne => rw [trailingLoop, dif_pos hc, if_pos hne] at h ⊢; simp at h
  | case2 f ti hc hne ih => rw [trailingLoop, dif_pos hc, if_neg hne] at h ⊢; exact ih h
  | case3 f ti hc => rw [trailingLoop, dif_neg hc]; simp only; omega

theorem trailingLoop_t_lb (l t : List Int) (s : Int) (f ti : Int) (h : -1 ≤ ti) :
    -1 ≤ (trailingLoop l t s f ti).2.2 := by
  induction f, ti using trailingLoop.induct l t s with
  | case1 f ti hc hne => rw [trailingLoop, dif_pos hc, if_pos hne]; simp only; omega
  | case2 f ti hc hne ih => rw [trailingLoop, dif_pos hc, if_neg hne]; exact ih (by omega)
  | case3 f ti hc => rw [trailingLoop, dif_neg hc]; simp only; omega

theorem leadingLoop_flag_iff (l t : List Int) (e : Int) (f ti : Int) :
    (leadingLoop l t e f ti).1 = true ↔
      ∀ k : Nat, (k : Int) ≤ e - f → ti + k < (t.length : Int) →
        idx l (f + k) = idx t (ti + k) := by
  induction f, ti using leadingLoop.induct l t e with
  | case1 f ti hc hne =>
    rw [leadingLoop, dif_pos hc, if_pos hne]
    simp only [Bool.false_eq_true, false_iff, not_forall]
    refine ⟨0, by omega, by push_cast; omega, by simpa using hne⟩
  | case2 f ti hc hne ih =>
    rw [leadingLoop, dif_pos hc, if_neg hne]
    rw [ih]
    constructor
    · intro hall k hk1 hk2
      match k with
      | 0 => simpa using Classical.not_not.mp hne
      | k + 1 =>
        have := hall k (by push_cast at hk1 ⊢; omega) (by push_cast at hk2 ⊢; omega)
        have harith1 : f + 1 + (k : Int) = f + ((k + 1 : Nat) : Int) := by push_cast; omega
        have harith2 : ti + 1 + (k : Int) = ti + ((k + 1 : Nat) : Int) := by push_cast; omega
        rwa [harith1, harith2] at this
    · intro hall k hk1 hk2
      have := hall (k + 1) (by push_cast; omega) (by push_cast at hk2 ⊢; omega)
      have harith1 : f + ((k + 1 : Nat) : Int) = f + 1 + (k : Int) := by push_cast; omega
      have harith2 : ti + ((k + 1 : Nat) : Int) = ti + 1 + (k : Int) := by push_cast; omega
      rwa [harith1, harith2] at this
  | case3 f ti hc =>
    rw [leadingLoop, dif_neg hc]
    simp only [true_iff]
    intro k hk1 hk2
    omega

theorem leadingLoop_lockstep (l t : List Int) (e : Int) (f ti : Int) :
    (leadingLoop l t e f ti).2.1 - f = (leadingLoop l t e f ti).2.2 - ti := by
  induction f, ti using leadingLoop.induct l t e with
  | case1 f ti hc hne => rw [leadingLoop, dif_pos hc, if_pos hne]; simp
  | case2 f ti hc hne ih => rw [leadingLoop, dif_pos hc, if_neg hne]; omega
  | case3 f ti hc => rw [leadingLoop, dif_neg hc]; simp

theorem leadingLoop_exit (l t : List Int) (e : Int) (f ti : Int)
    (h : (leadingLoop l t e f ti).1 = true) :
    e < (leadingLoop l t e f ti).2.1 ∨ (t.length : Int) ≤ (leadingLoop l t e f ti).2.2 := by
  induction f, ti using leadingLoop.induct l t e with
  | case1 f ti hc hne => rw [leadingLoop, dif_pos hc, if_pos hne] at h ⊢; simp at h
  | case2 f ti hc hne ih => rw [leadingLoop, dif_pos hc, if_neg hne] at h ⊢; exact ih h
  | case3 f ti hc => rw [leadingLoop, dif_neg hc]; simp only; omega

theorem leadingLoop_t_ub (l t : List Int) (e : Int) (f ti : Int)
    (h : ti ≤ (t.length : Int)) : (leadingLoop l t e f ti).2.2 ≤ (t.length : Int) := by
  induction f, ti using leadingLoop.induct l t e with
  | case1 f ti hc hne => rw [leadingLoop, dif_pos hc, if_pos hne]; simp only; omega
  | case2 f ti hc hne ih => rw [leadingLoop, dif_pos hc, if_neg hne]; exact ih (by omega)
  | case3 f ti hc => rw [leadingLoop, dif_neg hc]; simp only; omega


theorem trimStart_nonneg (l : List Int) : 0 ≤ trimStart l 0 := by
  rw [trimStart_zero]; omega

theorem trimStart_le_length (l : List Int) : trimStart l 0 ≤ (l.length : Int) := by
  rw [trimStart_zero]
  have hpr : List.IsPrefix (l.takeWhile (fun x : Int => x == 1)) l :=
    List.takeWhile_prefix _
  have := hpr.length_le
  omega

theorem core_length (l : List Int) :
    (coreOf l).length =
      (trimEnd l (trimStart l 0) ((l.length : Int) - 1) + 1 - trimStart l 0).toNat := by
  rw [coreOf_eq, List.length_take, List.length_drop]
  have h1 := trimStart_nonneg l
  have h2 := trimEnd_le l (trimStart l 0) ((l.length : Int) - 1)
  have h3 := trimStart_le_length l
  omega

theorem core_get (l : List Int) (j : Nat) (hj : j < (coreOf l).length) :
    (coreOf l).getD j 0 = l.getD ((trimStart l 0).toNat + j) 0 := by
  have hlen := core_length l
  have h1 := trimStart_nonneg l
  have h2 := trimEnd_le l (trimStart l 0) ((l.length : Int) - 1)
  have h3 := trimStart_le_length l
  have hj2 : j < (coreOf l).length := hj
  rw [coreOf_eq] at hj2 ⊢
  rw [List.length_take, List.length_drop] at hj2
  have hjl : (trimStart l 0).toNat + j < l.length := by omega
  rw [getD_eq_getElem _ _ (by rw [coreOf_eq] at hj; exact hj), getD_eq_getElem _ _ hjl]
  rw [List.getElem_take, List.getElem_drop]

theorem prefix_iff_ptwise (c t : List Int) (hc : c.length ≤ t.length) :
    c.isPrefixOf t = true ↔ ∀ j : Nat, j < c.length → c.getD j 0 = t.getD j 0 := by
  rw [List.isPrefixOf_iff_prefix, List.prefix_iff_eq_take]
  constructor
  · intro heq j hj
    conv_lhs => rw [heq]
    rw [getD_eq_getElem _ _ (by rw [List.length_take]; omega),
        getD_eq_getElem _ _ (by omega), List.getElem_take]
  · intro hall
    apply List.ext_getElem
    · rw [List.length_take]; omega
    · intro j hj1 hj2
      have := hall j hj1
      rw [getD_eq_getElem _ _ hj1, getD_eq_getElem _ _ (by omega)] at this
      rw [List.getElem_take]
      exact this

theorem suffix_iff_ptwise (c t : List Int) (hc : c.length ≤ t.length) :
    c.isSuffixOf t = true ↔
      ∀ j : Nat, j < c.length → c.getD j 0 = t.getD (t.length - c.length + j) 0 := by
  rw [List.isSuffixOf_iff_suffix, List.suffix_iff_eq_drop]
  constructor
  · intro heq j hj
    conv_lhs => rw [heq]
    rw [getD_eq_getElem _ _ (by rw [List.length_drop]; omega),
        getD_eq_getElem _ _ (by omega), List.getElem_drop]
  · intro hall
    apply List.ext_getElem
    · rw [List.length_drop]; omega
    · intro j hj1 hj2
      have := hall j hj1
      rw [getD_eq_getElem _ _ hj1, getD_eq_getElem _ _ (by omega)] at this
      rw [List.getElem_drop]
      exact this


theorem trailing_flag_iff_suffix (l t : List Int) (h : l.length ≤ t.length) :
    (trailingLoop l t (trimStart l 0)
        (trimEnd l (trimStart l 0) ((l.length : Int) - 1)) ((t.length : Int) - 1)).1 = true ↔
      (coreOf l).isSuffixOf t = true := by
  have h1 := trimStart_nonneg l
  have h2 := trimEnd_le l (trimStart l 0) ((l.length : Int) - 1)
  have h3 := trimStart_le_length l
  have hlen := core_length l
  have hcle : (coreOf l).length ≤ t.length := by omega
  rw [trailingLoop_flag_iff, suffix_iff_ptwise _ _ hcle]
  constructor
  · intro hall j hj
    have hse : trimStart l 0 ≤ trimEnd l (trimStart l 0) ((l.length : Int) - 1) := by omega
    have hk1 : (((coreOf l).length - 1 - j : Nat) : Int) ≤
        trimEnd l (trimStart l 0) ((l.length : Int) - 1) - trimStart l 0 := by omega
    have hk2 : (((coreOf l).length - 1 - j : Nat) : Int) ≤ (t.length : Int) - 1 := by omega
    have := hall ((coreOf l).length - 1 - j) hk1 hk2
    unfold idx at this
    have he1 : (trimEnd l (trimStart l 0) ((l.length : Int) - 1) -
        (((coreOf l).length - 1 - j : Nat) : Int)).toNat = (trimStart l 0).toNat + j := by
      omega
    have he2 : ((t.length : Int) - 1 - (((coreOf l).length - 1 - j : Nat) : Int)).toNat =
        t.length - (coreOf l).length + j := by omega
    rw [he1, he2] at this
    rw [core_get l j hj]
    exact this
  · intro hall k hk1 hk2
    have hse : trimStart l 0 ≤ trimEnd l (trimStart l 0) ((l.length : Int) - 1) := by omega
    have hj : (coreOf l).length - 1 - k < (coreOf l).length := by omega
    have := hall ((coreOf l).length - 1 - k) hj
    rw [core_get l _ hj] at this
    unfold idx
    have he1 : (trimEnd l (trimStart l 0) ((l.length : Int) - 1) - (k : Int)).toNat =
        (trimStart l 0).toNat + ((coreOf l).length - 1 - k) := by omega
    have he2 : ((t.length : Int) - 1 - (k : Int)).toNat =
        t.length - (coreOf l).length + ((coreOf l).length - 1 - k) := by omega
    rw [he1, he2]
    exact this

theorem leading_flag_prefix_iff (l t : List Int) (h : l.length ≤ t.length) :
    (leadingLoop l t (trimEnd l (trimStart l 0) ((l.length : Int) - 1))
        (trimStart l 0) 0).1 = true ↔
      (coreOf l).isPrefixOf t = true := by
  have h1 := trimStart_nonneg l
  have h2 := trimEnd_le l (trimStart l 0) ((l.length : Int) - 1)
  have h3 := trimStart_le_length l
  have hlen := core_length l
  have hcle : (coreOf l).length ≤ t.length := by omega
  rw [leadingLoop_flag_iff, prefix_iff_ptwise _ _ hcle]
  constructor
  · intro hall j hj
    have hk1 : ((j : Nat) : Int) ≤
        trimEnd l (trimStart l 0) ((l.length : Int) - 1) - trimStart l 0 := by omega
    have hk2 : (0 : Int) + (j : Int) < (t.length : Int) := by omega
    have := hall j hk1 hk2
    unfold idx at this
    have he1 : (trimStart l 0 + (j : Int)).toNat = (trimStart l 0).toNat + j := by omega
    have he2 : ((0 : Int) + (j : Int)).toNat = j := by omega
    rw [he1, he2] at this
    rw [core_get l j hj]
    exact this
  · intro hall k hk1 hk2
    have hj : k < (coreOf l).length := by omega
    have := hall k hj
    rw [core_get l _ hj] at this
    unfold idx
    have he1 : (trimStart l 0 + (k : Int)).toNat = (trimStart l 0).toNat + k := by omega
    have he2 : ((0 : Int) + (k : Int)).toNat = k := by omega
    rw [he1, he2]
    exact this


theorem fusibleExpandTo_eq_spec (l t : List Int) (h : l.length ≤ t.length) :
    fusibleExpandTo l t = fusibleExpandToSpec l t := by
  have h1 := trimStart_nonneg l
  have h2 := trimEnd_le l (trimStart l 0) ((l.length : Int) - 1)
  have h3 := trimStart_le_length l
  have htr : (trailingLoop l t (trimStart l 0)
      (trimEnd l (trimStart l 0) ((l.length : Int) - 1)) ((t.length : Int) - 1)).1 = true →
      (trailingLoop l t (trimStart l 0)
      (trimEnd l (trimStart l 0) ((l.length : Int) - 1)) ((t.length : Int) - 1)).2.1 ≤
      trimStart l 0 := by
    intro hf
    rcases trailingLoop_exit l t _ _ _ hf with hca | hcb
    · omega
    · have hlb := trailingLoop_t_lb l t (trimStart l 0)
        (trimEnd l (trimStart l 0) ((l.length : Int) - 1)) ((t.length : Int) - 1) (by omega)
      have hls := trailingLoop_lockstep l t (trimStart l 0)
        (trimEnd l (trimStart l 0) ((l.length : Int) - 1)) ((t.length : Int) - 1)
      omega
  have hld : (leadingLoop l t (trimEnd l (trimStart l 0) ((l.length : Int) - 1))
      (trimStart l 0) 0).1 = true →
      (leadingLoop l t (trimEnd l (trimStart l 0) ((l.length : Int) - 1))
      (trimStart l 0) 0).2.1 ≥ trimEnd l (trimStart l 0) ((l.length : Int) - 1) := by
    intro hf
    rcases leadingLoop_exit l t _ _ _ hf with hca | hcb
    · omega
    · have hub := leadingLoop_t_ub l t (trimEnd l (trimStart l 0) ((l.length : Int) - 1))
        (trimStart l 0) 0 (by omega)
      have hls := leadingLoop_lockstep l t (trimEnd l (trimStart l 0) ((l.length : Int) - 1))
        (trimStart l 0) 0
      omega
  simp only [fusibleExpandTo, fusibleExpandToSpec]
  rw [if_neg (by omega), if_pos h]
  by_cases hf : (trailingLoop l t (trimStart l 0)
      (trimEnd l (trimStart l 0) ((l.length : Int) - 1)) ((t.length : Int) - 1)).1 = true
  · rw [if_pos ⟨hf, htr hf⟩, if_pos ((trailing_flag_iff_suffix l t h).mp hf)]
  · have hnc1 : ¬((trailingLoop l t (trimStart l 0)
        (trimEnd l (trimStart l 0) ((l.length : Int) - 1)) ((t.length : Int) - 1)).1 = true ∧
        (trailingLoop l t (trimStart l 0)
        (trimEnd l (trimStart l 0) ((l.length : Int) - 1)) ((t.length : Int) - 1)).2.1 ≤
        trimStart l 0) := fun hc => hf hc.1
    have hns : ¬((coreOf l).isSuffixOf t = true) :=
      fun hc => hf ((trailing_flag_iff_suffix l t h).mpr hc)
    rw [if_neg hnc1, if_neg hns]
    by_cases hl : (leadingLoop l t (trimEnd l (trimStart l 0) ((l.length : Int) - 1))
        (trimStart l 0) 0).1 = true
    · rw [if_pos ⟨hl, hld hl⟩, if_pos ((leading_flag_prefix_iff l t h).mp hl)]
    · have hnc2 : ¬((leadingLoop l t (trimEnd l (trimStart l 0) ((l.length : Int) - 1))
          (trimStart l 0) 0).1 = true ∧
          (leadingLoop l t (trimEnd l (trimStart l 0) ((l.length : Int) - 1))
          (trimStart l 0) 0).2.1 ≥
          trimEnd l (trimStart l 0) ((l.length : Int) - 1)) := fun hc => hl hc.1
      have hnp : ¬((coreOf l).isPrefixOf t = true) :=
        fun hc => hl ((leading_flag_prefix_iff l t h).mpr hc)
      rw [if_neg hnc2, if_neg hnp]


theorem idPerm_length (n : Nat) : (idPerm n).length = n := by
  unfold idPerm
  rw [List.length_map, List.length_range]

theorem idPerm_getD (n : Nat) (j : Nat) (hj : j < n) : (idPerm n).getD j 0 = (j : Int) := by
  rw [getD_eq_getElem _ _ (by rw [idPerm_length]; exact hj)]
  unfold idPerm
  rw [List.getElem_map, List.getElem_range]
  rfl

theorem isValidPerm_bounds (p : List Int) (hp : isValidPerm p) :
    ∀ x ∈ p, 0 ≤ x ∧ x < (p.length : Int) := by
  intro x hx
  have hmem : x ∈ idPerm p.length := hp.mem_iff.mp hx
  unfold idPerm at hmem
  rw [List.mem_map] at hmem
  obtain ⟨j, hj, hje⟩ := hmem
  rw [List.mem_range] at hj
  rw [Int.ofNat_eq_natCast] at hje
  omega

theorem composeTransposes_length (p q : List Int) :
    (composeTransposes p q).length = p.length := by
  unfold composeTransposes
  rw [List.length_map]

theorem composeTransposes_getD (p q : List Int) (i : Nat) (hi : i < p.length) :
    (composeTransposes p q).getD i 0 = q.getD (p.getD i 0).toNat 0 := by
  unfold composeTransposes
  rw [getD_eq_getElem _ _ (by rw [List.length_map]; exact hi), List.getElem_map,
      getD_eq_getElem _ _ hi]

theorem composeTransposes_assoc (p q r : List Int)
    (hpq : q.length = p.length) (hp : isValidPerm p) :
    composeTransposes (composeTransposes p q) r =
      composeTransposes p (composeTransposes q r) := by
  apply List.ext_getElem
  · rw [composeTransposes_length, composeTransposes_length, composeTransposes_length]
  · intro i hi1 hi2
    rw [composeTransposes_length, composeTransposes_length] at hi1
    rw [← getD_eq_getElem (composeTransposes (composeTransposes p q) r) i
        (by rw [composeTransposes_length, composeTransposes_length]; exact hi1),
        ← getD_eq_getElem (composeTransposes p (composeTransposes q r)) i
        (by rw [composeTransposes_length]; exact hi1)]
    rw [composeTransposes_getD _ _ _ (by rw [composeTransposes_length]; exact hi1),
        composeTransposes_getD _ _ _ hi1,
        composeTransposes_getD _ _ _ hi1]
    have hbound := isValidPerm_bounds p hp (p.getD i 0)
      (by rw [getD_eq_getElem _ _ hi1]; exact List.getElem_mem hi1)
    rw [composeTransposes_getD q r _ (by omega)]

theorem composeTransposes_id_left (p : List Int) :
    composeTransposes (idPerm p.length) p = p := by
  apply List.ext_getElem
  · rw [composeTransposes_length, idPerm_length]
  · intro i hi1 hi2
    rw [composeTransposes_length, idPerm_length] at hi1
    rw [← getD_eq_getElem (composeTransposes (idPerm p.length) p) i
        (by rw [composeTransposes_length, idPerm_length]; exact hi1),
        composeTransposes_getD _ _ _ (by rw [idPerm_length]; exact hi1),
        idPerm_getD _ _ hi1, Int.toNat_natCast, getD_eq_getElem _ _ hi1]

theorem composeTransposes_id_right (p : List Int) (hp : isValidPerm p) :
    composeTransposes p (idPerm p.length) = p := by
  apply List.ext_getElem
  · rw [composeTransposes_length]
  · intro i hi1 hi2
    rw [composeTransposes_length] at hi1
    rw [← getD_eq_getElem (composeTransposes p (idPerm p.length)) i
        (by rw [composeTransposes_length]; exact hi1),
        composeTransposes_getD _ _ _ hi1]
    have hbound := isValidPerm_bounds p hp (p.getD i 0)
      (by rw [getD_eq_getElem _ _ hi1]; exact List.getElem_mem hi1)
    rw [idPerm_getD _ _ (by omega), getD_eq_getElem _ _ hi1]
    rw [getD_eq_getElem _ _ hi1] at hbound
    omega


theorem fuseBroadcastStep_meta_cases (g : Graph) (nid : Nat) (n : Node) (pid k : Nat)
    (p : Node) (ur : VRef)
    (hn : g.find nid = some n)
    (hbk : isBroadcastingKind n.kind = true)
    (hbc : n.broadcast.getD 0 = 0)
    (hax : n.axis = none)
    (hlast : n.inputs.getLast? = some (.out pid k))
    (hp : g.find pid = some p)
    (hpk : p.kind = .Expand)
    (hpin : p.inputs = [ur]) :
    (g.metaOf ur = none → fuseBroadcastStep g nid = .ok g) ∧
    ((g.metaOf ur).isSome → p.nOutputs = 1 → p.outMeta.getD 0 none = none →
      fuseBroadcastStep g nid = .error "expected TensorType") := by
  constructor
  · intro hmeta
    simp only [fuseBroadcastStep, hn, hbk, hbc, hax, hlast, hp, hpk, hpin, hmeta]
    simp
  · intro hmeta hout1 hout2
    obtain ⟨fs, hfs⟩ := Option.isSome_iff_exists.mp hmeta
    simp only [fuseBroadcastStep, hn, hbk, hbc, hax, hlast, hp, hpk, hpin, hfs, hout1, hout2]
    simp


theorem mem_nodes_of_find (g : Graph) (c : Nat) (n : Node) (h : g.find c = some n) :
    (c, n) ∈ g.nodes := by
  unfold Graph.find at h
  rw [Option.map_eq_some'] at h
  obtain ⟨q, hq, hq2⟩ := h
  have hmem := List.mem_of_find?_eq_some hq
  have hpred := List.find?_some hq
  simp only [beq_iff_eq] at hpred
  have : q = (c, n) := by
    cases q
    simp_all
  rwa [this] at hmem

theorem mem_ids_of_find (g : Graph) (c : Nat) (n : Node) (h : g.find c = some n) :
    c ∈ g.ids := by
  have := mem_nodes_of_find g c n h
  unfold Graph.ids
  exact List.mem_map.mpr ⟨(c, n), this, rfl⟩

theorem find_of_mem_ids (g : Graph) (c : Nat) (h : c ∈ g.ids) :
    ∃ n, g.find c = some n := by
  unfold Graph.ids at h
  rw [List.mem_map] at h
  obtain ⟨q, hq, hq2⟩ := h
  unfold Graph.find
  cases hfind : List.find? (fun p => p.1 == c) g.nodes with
  | none =>
    exfalso
    have := List.find?_eq_none.mp hfind q hq
    simp [hq2] at this
  | some r => exact ⟨r.2, rfl⟩

theorem find?_pair_eq (l : List (Nat × Node)) (c : Nat) (n : Node)
    (hnd : (l.map (fun p => p.1)).Nodup) (h : (c, n) ∈ l) :
    l.find? (fun p => p.1 == c) = some (c, n) := by
  induction l with
  | nil => simp at h
  | cons q rest ih =>
    rw [List.map_cons, List.nodup_cons] at hnd
    rcases List.mem_cons.mp h with hq | hrest
    · rw [← hq]
      rw [List.find?_cons_of_pos _ (by simp)]
    · have hqc : q.1 ≠ c := by
        intro hcontra
        exact hnd.1 (hcontra ▸ List.mem_map.mpr ⟨(c, n), hrest, rfl⟩)
      rw [List.find?_cons_of_neg _ (by simpa using hqc)]
      exact ih hnd.2 hrest

theorem find_of_mem_nodes (g : Graph) (c : Nat) (n : Node) (hnd : g.ids.Nodup)
    (h : (c, n) ∈ g.nodes) : g.find c = some n := by
  unfold Graph.find
  rw [find?_pair_eq g.nodes c n hnd h]
  rfl

theorem mem_usesOf_iff (g : Graph) (v : VRef) (c i : Nat) :
    (c, i) ∈ g.usesOf v ↔ ∃ m, (c, m) ∈ g.nodes ∧ m.inputs.get? i = some v := by
  unfold Graph.usesOf
  rw [List.mem_flatMap]
  constructor
  · intro h
    obtain ⟨q, hq, hmem⟩ := h
    rw [List.mem_map] at hmem
    obtain ⟨j, hj, hj2⟩ := hmem
    rw [List.mem_filter, List.mem_range] at hj
    obtain ⟨hjr, hjp⟩ := hj
    have hc : q.1 = c ∧ j = i := by
      constructor <;> [exact congrArg Prod.fst hj2; exact congrArg Prod.snd hj2]
    refine ⟨q.2, ?_, ?_⟩
    · rw [← hc.1]; exact hq
    · rw [← hc.2]; exact of_decide_eq_true hjp
  · intro h
    obtain ⟨m, hm, hget⟩ := h
    refine ⟨(c, m), hm, ?_⟩
    rw [List.mem_map]
    refine ⟨i, ?_, rfl⟩
    rw [List.mem_filter, List.mem_range]
    exact ⟨(List.get?_eq_some.mp hget).1, decide_eq_true hget⟩

theorem usesOf_eq_nil_iff (g : Graph) (v : VRef) :
    g.usesOf v = [] ↔ ∀ q ∈ g.nodes, ∀ i : Nat, q.2.inputs.get? i ≠ some v := by
  unfold Graph.usesOf
  rw [List.flatMap_eq_nil_iff]
  constructor
  · intro h q hq i hget
    have := h q hq
    rw [List.map_eq_nil_iff, List.filter_eq_nil_iff] at this
    exact this i (List.mem_range.mpr (List.get?_eq_some.mp hget).1) (decide_eq_true hget)
  · intro h q hq
    rw [List.map_eq_nil_iff, List.filter_eq_nil_iff]
    intro i hir hip
    exact h q hq i (of_decide_eq_true hip)


theorem find?_map_preserve (l : List (Nat × Node)) (F : Nat × Node → Nat × Node)
    (hF : ∀ q, (F q).1 = q.1) (c : Nat) :
    (l.map F).find? (fun p => p.1 == c) = (l.find? (fun p => p.1 == c)).map F := by
  induction l with
  | nil => rfl
  | cons q rest ih =>
    rw [List.map_cons]
    by_cases hc : q.1 = c
    · rw [List.find?_cons_of_pos _ (by simp [hF, hc]), List.find?_cons_of_pos _ (by simp [hc])]
      rfl
    · rw [List.find?_cons_of_neg _ (by simp [hF, hc]), List.find?_cons_of_neg _ (by simp [hc])]
      exact ih

theorem find_replaceAllUses (g : Graph) (o v : VRef) (m : Nat) :
    (g.replaceAllUses o v).find m = (g.find m).map (Node.mapInputs (subst o v)) := by
  unfold Graph.replaceAllUses Graph.find
  simp only
  rw [find?_map_preserve g.nodes (fun p => (p.1, Node.mapInputs (subst o v) p.2)) (fun q => rfl) m]
  cases List.find? (fun p => p.1 == m) g.nodes <;> rfl

theorem find_modifyNode (g : Graph) (nid : Nat) (f : Node → Node) (m : Nat) :
    (g.modifyNode nid f).find m = if m = nid then (g.find m).map f else g.find m := by
  unfold Graph.modifyNode Graph.find
  simp only
  rw [find?_map_preserve _ (fun p => if p.1 = nid then (p.1, f p.2) else p)
    (fun q => by by_cases h : q.1 = nid <;> simp [h])]
  cases hf : List.find? (fun p => p.1 == m) g.nodes with
  | none => simp
  | some q =>
    have hq := List.find?_some hf
    simp only [beq_iff_eq] at hq
    by_cases hm : m = nid
    · subst hm
      simp [hq]
    · simp [hq, hm]

theorem find?_filter_ne (l : List (Nat × Node)) (nid c : Nat) :
    (l.filter (fun p => decide (p.1 ≠ nid))).find? (fun p => p.1 == c) =
      if c = nid then none else l.find? (fun p => p.1 == c) := by
  induction l with
  | nil => simp
  | cons q rest ih =>
    by_cases hq : q.1 = nid
    · rw [List.filter_cons_of_neg (by simp [hq]), ih]
      by_cases hc : c = nid
      · rw [if_pos hc, if_pos hc]
      · rw [if_neg hc, if_neg hc, List.find?_cons_of_neg _ (by simp [hq]; omega)]
    · rw [List.filter_cons_of_pos (by simp [hq])]
      by_cases hqc : q.1 = c
      · have hcn : c ≠ nid := by rw [← hqc]; exact hq
        rw [if_neg hcn, List.find?_cons_of_pos _ (by simp [hqc]),
            List.find?_cons_of_pos _ (by simp [hqc])]
      · rw [List.find?_cons_of_neg _ (by simp [hqc]), ih]
        by_cases hc : c = nid
        · rw [if_pos hc, if_pos hc]
        · rw [if_neg hc, if_neg hc, List.find?_cons_of_neg _ (by simp [hqc])]

theorem find_destroy (g : Graph) (nid : Nat) (m : Nat) :
    (g.destroy nid).find m = if m = nid then none else g.find m := by
  unfold Graph.destroy Graph.find
  simp only
  rw [find?_filter_ne]
  by_cases hm : m = nid
  · rw [if_pos hm, if_pos hm]
    rfl
  · rw [if_neg hm, if_neg hm]


theorem find?_eq_none_of_not_mem_ids (g : Graph) (c : Nat) (h : c ∉ g.ids) :
    g.nodes.find? (fun p => p.1 == c) = none := by
  rw [List.find?_eq_none]
  intro q hq
  simp only [beq_iff_eq]
  intro hcontra
  exact h (List.mem_map.mpr ⟨q, hq, hcontra⟩)

theorem find_insertBeforeId (g : Graph) (a nid : Nat) (n : Node) (m : Nat)
    (hnid : nid ∉ g.ids) :
    (g.insertBeforeId a nid n).find m = if m = nid then some n else g.find m := by
  unfold Graph.insertBeforeId Graph.find
  simp only
  rw [List.find?_append]
  by_cases hm : m = nid
  · subst hm
    have htw : (g.nodes.takeWhile (fun p => p.1 ≠ a)).find? (fun p => p.1 == m) = none := by
      rw [List.find?_eq_none]
      intro q hq
      simp only [beq_iff_eq]
      intro hcontra
      exact hnid (List.mem_map.mpr ⟨q,
        (List.takeWhile_prefix (fun p => p.1 ≠ a)).subset hq, hcontra⟩)
    rw [htw]
    simp
  · rw [if_neg hm, List.find?_cons_of_neg _ (by simpa using fun hc => hm hc.symm)]
    conv_rhs => rw [← List.takeWhile_append_dropWhile (fun p => p.1 ≠ a) g.nodes]
    rw [List.find?_append]

theorem find_insertAfterId (g : Graph) (a nid : Nat) (n : Node) (m : Nat)
    (hnid : nid ∉ g.ids) :
    (g.insertAfterId a nid n).find m = if m = nid then some n else g.find m := by
  unfold Graph.insertAfterId Graph.find
  simp only
  have htw : m = nid → (g.nodes.takeWhile (fun p => p.1 ≠ a)).find? (fun p => p.1 == m) = none := by
    intro hm
    rw [List.find?_eq_none]
    intro q hq
    simp only [beq_iff_eq]
    intro hcontra
    exact hnid (List.mem_map.mpr ⟨q,
      (List.takeWhile_prefix (fun p => p.1 ≠ a)).subset hq, hm ▸ hcontra⟩)
  cases hd : g.nodes.dropWhile (fun p => p.1 ≠ a) with
  | nil =>
    rw [List.find?_append]
    by_cases hm : m = nid
    · rw [if_pos hm, htw hm]
      simp [hm]
    · rw [if_neg hm, List.find?_cons_of_neg _ (by simpa using fun hc => hm hc.symm)]
      conv_rhs => rw [← List.takeWhile_append_dropWhile (fun p => p.1 ≠ a) g.nodes, hd]
      rw [List.find?_append]
  | cons q rest =>
    rw [List.find?_append]
    have hqn : q.1 ≠ nid := by
      intro hcontra
      have hqmem : q ∈ g.nodes :=
        (List.dropWhile_suffix (fun p => p.1 ≠ a)).subset (by rw [hd]; exact List.mem_cons_self q rest)
      exact hnid (List.mem_map.mpr ⟨q, hqmem, hcontra⟩)
    by_cases hm : m = nid
    · rw [if_pos hm, htw hm,
          List.find?_cons_of_neg _ (by simp only [beq_iff_eq]; rw [hm]; exact hqn),
          List.find?_cons_of_pos _ (by simp [hm])]
      simp
    · rw [if_neg hm]
      conv_rhs => rw [← List.takeWhile_append_dropWhile (fun p => p.1 ≠ a) g.nodes, hd]
      rw [List.find?_append]
      by_cases hqm : q.1 = m
      · rw [List.find?_cons_of_pos _ (by simpa using hqm),
            List.find?_cons_of_pos _ (by simpa using hqm)]
      · rw [List.find?_cons_of_neg _ (by simpa using hqm),
            List.find?_cons_of_neg _ (by simpa using fun hc => hm hc.symm),
            List.find?_cons_of_neg _ (by simpa using hqm)]

theorem mem_ids_replaceAllUses (g : Graph) (o v : VRef) :
    (g.replaceAllUses o v).ids = g.ids := by
  unfold Graph.replaceAllUses Graph.ids
  rw [List.map_map]
  rfl

theorem mem_ids_modifyNode (g : Graph) (nid : Nat) (f : Node → Node) :
    (g.modifyNode nid f).ids = g.ids := by
  unfold Graph.modifyNode Graph.ids
  rw [List.map_map]
  congr 1
  funext p
  by_cases h : p.1 = nid <;> simp [h]

theorem mem_ids_destroy (g : Graph) (nid m : Nat) :
    m ∈ (g.destroy nid).ids ↔ m ∈ g.ids ∧ m ≠ nid := by
  unfold Graph.destroy Graph.ids
  simp only [List.mem_map, List.mem_filter]
  constructor
  · rintro ⟨q, ⟨hq, hqn⟩, rfl⟩
    exact ⟨⟨q, hq, rfl⟩, by simpa using hqn⟩
  · rintro ⟨⟨q, hq, rfl⟩, hmn⟩
    exact ⟨q, ⟨hq, by simpa using hmn⟩, rfl⟩

theorem mem_ids_insertBeforeId (g : Graph) (a nid : Nat) (n : Node) (m : Nat) :
    m ∈ (g.insertBeforeId a nid n).ids ↔ m = nid ∨ m ∈ g.ids := by
  unfold Graph.insertBeforeId Graph.ids
  simp only [List.map_append, List.map_cons, List.mem_append, List.mem_cons]
  conv_rhs => rw [← List.takeWhile_append_dropWhile (fun p => p.1 ≠ a) g.nodes]
  simp only [List.map_append, List.mem_append]
  tauto

theorem mem_ids_insertAfterId (g : Graph) (a nid : Nat) (n : Node) (m : Nat) :
    m ∈ (g.insertAfterId a nid n).ids ↔ m = nid ∨ m ∈ g.ids := by
  unfold Graph.insertAfterId Graph.ids
  cases hd : g.nodes.dropWhile (fun p => p.1 ≠ a) with
  | nil =>
    simp only [List.map_append, List.map_cons, List.mem_append, List.mem_cons]
    conv_rhs => rw [← List.takeWhile_append_dropWhile (fun p => p.1 ≠ a) g.nodes, hd]
    simp only [List.map_append, List.mem_append]
    simp
    tauto
  | cons q rest =>
    simp only [List.map_append, List.map_cons, List.mem_append, List.mem_cons]
    conv_rhs => rw [← List.takeWhile_append_dropWhile (fun p => p.1 ≠ a) g.nodes, hd]
    simp only [List.map_append, List.map_cons, List.mem_append, List.mem_cons]
    tauto

theorem find_replaceFold (L : List Nat) (g : Graph) (nid : Nat) (touts : List VRef) :
    ∃ F : Node → Node, (∀ nd : Node, (F nd).kind = nd.kind ∧ (F nd).perm = nd.perm ∧
        (F nd).nOutputs = nd.nOutputs) ∧
      ∀ m, (L.foldl (fun h i => h.replaceAllUses (.out nid i) (touts.getD i (.gin 0))) g).find m =
        (g.find m).map F := by
  induction L generalizing g with
  | nil => exact ⟨id, fun nd => ⟨rfl, rfl, rfl⟩, by simp⟩
  | cons i L ih =>
    obtain ⟨F, hF, heq⟩ := ih (g.replaceAllUses (.out nid i) (touts.getD i (.gin 0)))
    refine ⟨F ∘ Node.mapInputs (subst (.out nid i) (touts.getD i (.gin 0))), ?_, ?_⟩
    · intro nd
      have h1 := hF (Node.mapInputs (subst (.out nid i) (touts.getD i (.gin 0))) nd)
      simpa [Node.mapInputs] using h1
    · intro m
      rw [List.foldl_cons, heq m, find_replaceAllUses, Option.map_map]

theorem find_rauwn (g : Graph) (nid : Nat) (n : Node) (target : VRef) (gr : Graph)
    (h : g.replaceAllUsesWithNode nid n target = .ok gr) :
    ∃ F : Node → Node, (∀ nd : Node, (F nd).kind = nd.kind ∧ (F nd).perm = nd.perm ∧
        (F nd).nOutputs = nd.nOutputs) ∧
      ∀ m, gr.find m = (g.find m).map F := by
  unfold Graph.replaceAllUsesWithNode at h
  by_cases hc : n.nOutputs = (g.refNodeOutputs target).length
  · rw [if_pos hc, Except.ok.injEq] at h
    subst h
    exact find_replaceFold (List.range n.nOutputs) g nid (g.refNodeOutputs target)
  · rw [if_neg hc] at h
    simp at h

theorem enopStep_preserve (g : Graph) (a : Nat) (g1 : Graph)
    (h : eliminateNopTransposeStep g a = .ok g1) :
    ∀ m n1, g1.find m = some n1 →
      ∃ n0, g.find m = some n0 ∧ n1.kind = n0.kind ∧ n1.perm = n0.perm ∧
        (m = a → n0.kind = .Transpose →
          ∃ pm, n0.perm = some pm ∧ isNopTranspose pm = false) := by
  unfold eliminateNopTransposeStep at h
  cases hfa : g.find a with
  | none =>
    simp only [hfa, Except.ok.injEq] at h
    subst h
    intro m n1 hf
    refine ⟨n1, hf, rfl, rfl, fun hma _ => ?_⟩
    rw [hma, hfa] at hf
    exact absurd hf (by simp)
  | some n =>
    simp only [hfa] at h
    by_cases hk : n.kind = .Transpose
    · rw [if_pos hk] at h
      cases hperm : n.perm with
      | none => simp [hperm] at h
      | some pm =>
        simp only [hperm] at h
        by_cases hnop : isNopTranspose pm = true
        · rw [if_pos hnop] at h
          cases hin : n.inputs with
          | nil => simp [hin] at h
          | cons r rest =>
            cases rest with
            | cons r2 rest2 => simp [hin] at h
            | nil =>
              simp only [hin] at h
              cases hrw : g.replaceAllUsesWithNode a n r with
              | error e => simp [hrw] at h
              | ok gr =>
                simp only [hrw, Except.ok.injEq] at h
                subst h
                intro m n1 hf
                rw [find_destroy] at hf
                by_cases hma : m = a
                · rw [if_pos hma] at hf
                  exact absurd hf (by simp)
                · rw [if_neg hma] at hf
                  obtain ⟨F, hF, heq⟩ := find_rauwn g a n r gr hrw
                  rw [heq m] at hf
                  rw [Option.map_eq_some'] at hf
                  obtain ⟨n0, hn0, hn0e⟩ := hf
                  exact ⟨n0, hn0, by rw [← hn0e]; exact (hF n0).1,
                    by rw [← hn0e]; exact (hF n0).2.1, fun hc => absurd hc hma⟩
        · rw [if_neg hnop] at h
          rw [Except.ok.injEq] at h
          subst h
          intro m n1 hf
          refine ⟨n1, hf, rfl, rfl, fun hma hkk => ?_⟩
          rw [hma, hfa] at hf
          rw [Option.some.injEq] at hf
          subst hf
          exact ⟨pm, hperm, by simpa using hnop⟩
    · rw [if_neg hk] at h
      rw [Except.ok.injEq] at h
      subst h
      intro m n1 hf
      refine ⟨n1, hf, rfl, rfl, fun hma hkk => ?_⟩
      rw [hma, hfa] at hf
      rw [Option.some.injEq] at hf
      subst hf
      exact absurd hkk hk

theorem enopFold_preserve (l : List Nat) (g g' : Graph)
    (h : l.foldlM eliminateNopTransposeStep g = .ok g') :
    ∀ m n', g'.find m = some n' →
      ∃ n0, g.find m = some n0 ∧ n'.kind = n0.kind ∧ n'.perm = n0.perm ∧
        (m ∈ l → n0.kind = .Transpose →
          ∃ pm, n0.perm = some pm ∧ isNopTranspose pm = false) := by
  induction l generalizing g with
  | nil =>
    simp only [List.foldlM_nil] at h
    injection h with h
    subst h
    intro m n' hf
    exact ⟨n', hf, rfl, rfl, by simp⟩
  | cons a l ih =>
    rw [List.foldlM_cons] at h
    cases hstep : eliminateNopTransposeStep g a with
    | error e =>
      rw [hstep] at h
      exact absurd h (by intro hc; exact Except.noConfusion hc)
    | ok g1 =>
      rw [hstep] at h
      have h2 : l.foldlM eliminateNopTransposeStep g1 = .ok g' := h
      intro m n' hf
      obtain ⟨n1, hn1, hk1, hp1, hv1⟩ := ih g1 h2 m n' hf
      obtain ⟨n0, hn0, hk0, hp0, hv0⟩ := enopStep_preserve g a g1 hstep m n1 hn1
      refine ⟨n0, hn0, hk1.trans hk0, hp1.trans hp0, fun hml hkk => ?_⟩
      rcases List.mem_cons.mp hml with hma | hml'
      · exact hv0 hma hkk
      · obtain ⟨pm, hpm, hnp⟩ := hv1 hml' (hk0 ▸ hkk)
        exact ⟨pm, hp0 ▸ hpm, hnp⟩

theorem foldlM_ok_id (l : List Nat) (g : Graph)
    (f : Graph → Nat → Except String Graph) (h : ∀ a ∈ l, f g a = .ok g) :
    l.foldlM f g = .ok g := by
  induction l with
  | nil => rfl
  | cons a l ih =>
    rw [List.foldlM_cons, h a (List.mem_cons_self a l)]
    exact ih (fun b hb => h b (List.mem_cons_of_mem a hb))

theorem filter_ne_length (l : List (Nat × Node)) (nid : Nat)
    (hnd : (l.map (fun p => p.1)).Nodup) (hmem : nid ∈ l.map (fun p => p.1)) :
    (l.filter (fun p => decide (p.1 ≠ nid))).length + 1 = l.length := by
  induction l with
  | nil => simp at hmem
  | cons q rest ih =>
    rw [List.map_cons, List.nodup_cons] at hnd
    by_cases hq : q.1 = nid
    · rw [List.filter_cons_of_neg (by simp [hq])]
      have hnin : ∀ p ∈ rest, decide (p.1 ≠ nid) = true := by
        intro p hp
        simp only [decide_eq_true_iff]
        intro hcontra
        exact hnd.1 (hq ▸ hcontra ▸ List.mem_map.mpr ⟨p, hp, rfl⟩)
      rw [List.filter_eq_self.mpr hnin]
      simp
    · rw [List.filter_cons_of_pos (by simp [hq])]
      have hmem' : nid ∈ rest.map (fun p => p.1) := by
        rw [List.map_cons] at hmem
        rcases List.mem_cons.mp hmem with hc | hc
        · exact absurd hc.symm hq
        · exact hc
      simp only [List.length_cons]
      rw [← ih hnd.2 hmem']

theorem enopStep_elim (g : Graph) (nid pid : Nat) (n p : Node) (pm : List Int)
    (hnd : g.ids.Nodup)
    (hn : g.find nid = some n) (hk : n.kind = .Transpose) (hpm : n.perm = some pm)
    (hnop : isNopTranspose pm = true) (hin : n.inputs = [.out pid 0])
    (hout : n.nOutputs = 1)
    (hp : g.find pid = some p) (hpo : p.nOutputs = 1) (hne : pid ≠ nid) :
    ∃ g', eliminateNopTransposeStep g nid = .ok g' ∧
      g'.nodes.length + 1 = g.nodes.length ∧
      g'.find nid = none ∧
      g'.usesOf (.out nid 0) = [] ∧
      (∀ c i r, c ≠ nid → g.inputAt c i = some r →
        g'.inputAt c i = some (subst (.out nid 0) (.out pid 0) r)) := by
  have houts : g.refNodeOutputs (.out pid 0) = [.out pid 0] := by
    simp only [Graph.refNodeOutputs, hp, hpo]
    rfl
  have hrw : g.replaceAllUsesWithNode nid n (.out pid 0) =
      .ok (g.replaceAllUses (.out nid 0) (.out pid 0)) := by
    unfold Graph.replaceAllUsesWithNode
    rw [houts, if_pos (by rw [hout]; rfl), hout]
    rfl
  refine ⟨(g.replaceAllUses (.out nid 0) (.out pid 0)).destroy nid, ?_, ?_, ?_, ?_, ?_⟩
  · unfold eliminateNopTransposeStep
    simp only [hn, if_pos hk, hpm, if_pos hnop, hin, hrw]
  · unfold Graph.destroy Graph.replaceAllUses
    simp only [List.length_filter_lt_length_iff_exists]
    rw [filter_ne_length _ nid
      (by
        have : ((g.nodes.map (fun q => (q.1, q.2.mapInputs
            (subst (.out nid 0) (.out pid 0))))).map (fun q => q.1)) = g.ids := by
          rw [List.map_map]; rfl
        rw [this]; exact hnd)
      (by
        have : ((g.nodes.map (fun q => (q.1, q.2.mapInputs
            (subst (.out nid 0) (.out pid 0))))).map (fun q => q.1)) = g.ids := by
          rw [List.map_map]; rfl
        rw [this]; exact mem_ids_of_find g nid n hn)]
    rw [List.length_map]
  · rw [find_destroy, if_pos rfl]
  · rw [usesOf_eq_nil_iff]
    intro q hq i hget
    unfold Graph.destroy at hq
    rw [List.mem_filter] at hq
    unfold Graph.replaceAllUses at hq
    rw [List.mem_map] at hq
    obtain ⟨⟨q0, hq0, hq0e⟩, hqne⟩ := hq
    rw [← hq0e] at hget
    simp only [Node.mapInputs] at hget
    rw [List.get?_map] at hget
    rw [Option.map_eq_some'] at hget
    obtain ⟨r0, hr0, hr0e⟩ := hget
    unfold subst at hr0e
    by_cases hcase : r0 = VRef.out nid 0
    · rw [if_pos hcase] at hr0e
      have : pid = nid := by
        injection hr0e with h1 h2
      exact hne this
    · rw [if_neg hcase] at hr0e
      exact hcase hr0e
  · intro c i r hc hin0
    unfold Graph.inputAt at hin0 ⊢
    rw [find_destroy, if_neg hc, find_replaceAllUses]
    cases hfc : g.find c with
    | none => rw [hfc] at hin0; exact absurd hin0 (by simp)
    | some m =>
      rw [hfc] at hin0
      have hin0' : m.inputs.get? i = some r := hin0
      show (Node.mapInputs (subst (.out nid 0) (.out pid 0)) m).inputs.get? i = some _
      simp only [Node.mapInputs]
      rw [List.get?_map, hin0']
      rfl

theorem usesOf_nil_iff_find (g : Graph) (v : VRef) (hnd : g.ids.Nodup) :
    g.usesOf v = [] ↔ ∀ c i m, g.find c = some m → m.inputs.get? i ≠ some v := by
  rw [usesOf_eq_nil_iff]
  constructor
  · intro h c i m hm hget
    exact h (c, m) (mem_nodes_of_find g c m hm) i hget
  · intro h q hq i hget
    exact h q.1 i q.2 (find_of_mem_nodes g q.1 q.2 hnd hq) hget

theorem fctStep_spec (g : Graph) (nid pid k : Nat) (n p : Node) (pp np : List Int) (pr : VRef)
    (hnd : g.ids.Nodup)
    (hn : g.find nid = some n) (hk : n.kind = .Transpose)
    (hin : n.inputs = [.out pid k])
    (hp : g.find pid = some p) (hpk : p.kind = .Transpose)
    (hppm : p.perm = some pp) (hnpm : n.perm = some np)
    (hok : composeOk pp np = true)
    (hpin : p.inputs = [pr])
    (hne : pid ≠ nid)
    (hpr : pr ≠ .out pid k) :
    ∃ g', fuseConsecutiveTransposesStep g nid = .ok g' ∧
      g'.find nid = some { n with perm := some (composeTransposes pp np), inputs := [pr] } ∧
      (g'.find pid = none ↔ ∀ c i m, g.find c = some m →
        m.inputs.get? i = some (.out pid k) → (c, i) = (nid, 0)) ∧
      (g'.find pid = none ∨ g'.find pid = some p) := by
  have hstep : fuseConsecutiveTransposesStep g nid =
      (if ((((g.modifyNode nid (fun m => { m with perm := some (composeTransposes pp np) })).modifyNode
          nid (fun m => { m with inputs := m.inputs.set 0 pr })).usesOf (.out pid k)).isEmpty) then
        .ok (((g.modifyNode nid (fun m => { m with perm := some (composeTransposes pp np) })).modifyNode
          nid (fun m => { m with inputs := m.inputs.set 0 pr })).destroy pid)
      else .ok ((g.modifyNode nid (fun m => { m with perm := some (composeTransposes pp np) })).modifyNode
          nid (fun m => { m with inputs := m.inputs.set 0 pr }))) := by
    unfold fuseConsecutiveTransposesStep
    simp only [hn, if_pos hk, hin, hp, if_pos hpk, hppm, hnpm, if_pos hok, hpin]
  set g2 := ((g.modifyNode nid (fun m => { m with perm := some (composeTransposes pp np) })).modifyNode
      nid (fun m => { m with inputs := m.inputs.set 0 pr })) with hg2
  have hfind2 : ∀ c, g2.find c =
      if c = nid then some { n with perm := some (composeTransposes pp np), inputs := [pr] }
      else g.find c := by
    intro c
    rw [hg2, find_modifyNode, find_modifyNode]
    by_cases hc : c = nid
    · rw [if_pos hc, if_pos hc, if_pos hc, hc, hn]
      simp only [Option.map_some']
      rw [hin]
      rfl
    · rw [if_neg hc, if_neg hc, if_neg hc]
  have hnd2 : g2.ids.Nodup := by
    rw [hg2, mem_ids_modifyNode, mem_ids_modifyNode]
    exact hnd
  have hcond : (g2.usesOf (.out pid k) = []) ↔
      (∀ c i m, g.find c = some m →
        m.inputs.get? i = some (.out pid k) → (c, i) = (nid, 0)) := by
    rw [usesOf_nil_iff_find g2 _ hnd2]
    constructor
    · intro h c i m hm hget
      by_cases hc : c = nid
      · subst hc
        rw [hn, Option.some.injEq] at hm
        subst hm
        rw [hin] at hget
        cases i with
        | zero => rfl
        | succ j => simp at hget
      · exfalso
        exact h c i m (by rw [hfind2 c, if_neg hc]; exact hm) hget
    · intro h c i m hm hget
      rw [hfind2 c] at hm
      by_cases hc : c = nid
      · rw [if_pos hc] at hm
        rw [Option.some.injEq] at hm
        subst hm
        simp only at hget
        cases i with
        | zero =>
          simp only [List.get?] at hget
          rw [Option.some.injEq] at hget
          exact hpr hget
        | succ j => simp [List.get?] at hget
      · rw [if_neg hc] at hm
        have := h c i m hm hget
        rw [Prod.mk.injEq] at this
        exact hc this.1
  by_cases hcase : (g2.usesOf (.out pid k)).isEmpty
  · rw [List.isEmpty_iff] at hcase
    refine ⟨g2.destroy pid, ?_, ?_, ?_, ?_⟩
    · rw [hstep, if_pos (by rw [List.isEmpty_iff]; exact hcase)]
    · rw [find_destroy, if_neg (Ne.symm hne), hfind2, if_pos rfl]
    · rw [find_destroy, if_pos rfl]
      simp only [true_iff]
      exact hcond.mp hcase
    · left
      rw [find_destroy, if_pos rfl]
  · have hcase' : ¬(g2.usesOf (.out pid k) = []) := by
      rwa [← List.isEmpty_iff]
    refine ⟨g2, ?_, ?_, ?_, ?_⟩
    · rw [hstep, if_neg hcase]
    · rw [hfind2, if_pos rfl]
    · rw [hfind2, if_neg hne, hp]
      constructor
      · intro hc
        exact absurd hc (by simp)
      · intro hall
        exact absurd (hcond.mpr hall) hcase'
    · right
      rw [hfind2, if_neg hne, hp]

theorem not_mem_ids_insert (g : Graph) (a nid m : Nat) (n : Node)
    (h1 : m ∉ g.ids) (h2 : m ≠ nid) : m ∉ (g.insertBeforeId a nid n).ids := by
  rw [mem_ids_insertBeforeId]
  rintro (rfl | hc)
  · exact h2 rfl
  · exact h1 hc

theorem ids_insertBeforeId_perm (g : Graph) (a nid : Nat) (n : Node) :
    (g.insertBeforeId a nid n).ids.Perm (nid :: g.ids) := by
  unfold Graph.insertBeforeId Graph.ids
  simp only [List.map_append, List.map_cons]
  refine (List.perm_middle).trans ?_
  rw [← List.map_append, List.takeWhile_append_dropWhile]

theorem nodup_ids_insert (g : Graph) (a nid : Nat) (n : Node)
    (h1 : g.ids.Nodup) (h2 : nid ∉ g.ids) : (g.insertBeforeId a nid n).ids.Nodup := by
  rw [(ids_insertBeforeId_perm g a nid n).nodup_iff]
  exact List.nodup_cons.mpr ⟨h2, h1⟩

theorem find_withFresh (g : Graph) (f : Nat) (m : Nat) :
    (Graph.mk g.nodes g.ginMeta f).find m = g.find m := rfl

theorem ids_withFresh (g : Graph) (f : Nat) :
    (Graph.mk g.nodes g.ginMeta f).ids = g.ids := rfl

theorem fixState_spec (g : Graph) (nid inputIndex : Nat) (n : Node) (pid k : Nat) (p : Node)
    (hs : Int)
    (hnd : g.ids.Nodup)
    (hfr : ∀ i ∈ g.ids, i < g.fresh)
    (hn : g.find nid = some n)
    (hini : n.inputs.get? inputIndex = some (.out pid k))
    (hii : 0 < inputIndex)
    (hp : g.find pid = some p)
    (hpn : pid ≠ nid)
    (hkind : p.kind = .Constant)
    (hhs : n.hidden_size = some hs) :
    ∃ g', fixDefaultRNNState g nid inputIndex = .ok g' ∧
      g'.inputAt nid inputIndex = some (.out (g.fresh + 8) 0) ∧
      (.out (g.fresh + 8) 0 : VRef) ≠ .out pid k ∧
      (g'.find (g.fresh + 8)).map Node.kind = some .ConstantFill ∧
      (g'.find (g.fresh + 8)).map Node.inputs = some [.out (g.fresh + 7) 0] ∧
      (g'.find (g.fresh + 7)).map Node.kind = some .Concat ∧
      (g.usesOf (.out pid k) = [(nid, inputIndex)] → g'.find pid = none) ∧
      ((∃ u ∈ g.usesOf (.out pid k), u ≠ (nid, inputIndex)) → g'.find pid = some p) := by
  have hrk : g.refKind (.out pid k) = .Constant := by
    simp only [Graph.refKind, hp, hkind]
  have hpidb : pid < g.fresh := hfr pid (mem_ids_of_find g pid p hp)
  have hnidb : nid < g.fresh := hfr nid (mem_ids_of_find g nid n hn)
  have hlen : inputIndex < n.inputs.length := (List.get?_eq_some.mp hini).1
  unfold fixDefaultRNNState
  simp only [hn, hini, hrk, if_pos, hhs]
  set b := g.fresh with hbdef
  set N0 : Node := { kind := .Shape, inputs := [n.inputs.getD 0 (.gin 0)] } with hN0
  set N1 : Node := { kind := .Constant, tval := some [1] } with hN1
  set N2 : Node := { kind := .Gather, inputs := [.out b 0, .out (b + 1) 0] } with hN2
  set N3 : Node := { kind := .Unsqueeze, inputs := [.out (b + 2) 0], axes := some [0] } with hN3
  set N4 : Node := { kind := .Constant, tval := some [hs] } with hN4
  set N5 : Node := { kind := .Constant, tval := some [if n.direction = some "bidirectional" then 2 else 1] } with hN5
  set N6 : Node := { kind := .Unsqueeze, inputs := [.out (b + 5) 0], axes := some [0] } with hN6
  set N7 : Node := { kind := .Concat, inputs := [.out (b + 6) 0, .out (b + 3) 0, .out (b + 4) 0], axis := some 0 } with hN7
  set N8 : Node := { kind := .ConstantFill, inputs := [.out (b + 7) 0], input_as_shape := some 1 } with hN8
  set G0 : Graph := g.insertBeforeId nid b N0 with hG0
  set G1 : Graph := G0.insertBeforeId nid (b + 1) N1 with hG1
  set G2 : Graph := G1.insertBeforeId nid (b + 2) N2 with hG2
  set G3 : Graph := G2.insertBeforeId nid (b + 3) N3 with hG3
  set G4 : Graph := G3.insertBeforeId nid (b + 4) N4 with hG4
  set G5 : Graph := G4.insertBeforeId nid (b + 5) N5 with hG5
  set G6 : Graph := G5.insertBeforeId nid (b + 6) N6 with hG6
  set G7 : Graph := G6.insertBeforeId nid (b + 7) N7 with hG7
  set G8 : Graph := G7.insertBeforeId nid (b + 8) N8 with hG8
  set G9 : Graph := ⟨G8.nodes, G8.ginMeta, b + 9⟩ with hG9
  set G10 : Graph := G9.modifyNode nid (fun m => { m with inputs := m.inputs.set inputIndex (.out (b + 8) 0) }) with hG10
  have hfresh_notin : ∀ j : Nat, b ≤ j → j ∉ g.ids := fun j hj hm => absurd (hfr j hm) (by omega)
  have hmem0 : ∀ m, m ∈ G0.ids ↔ m = b ∨ m ∈ g.ids := fun m => by
    rw [hG0]; exact mem_ids_insertBeforeId g nid b N0 m
  have hmem1 : ∀ m, m ∈ G1.ids ↔ m = (b + 1) ∨ m = b ∨ m ∈ g.ids := fun m => by
    rw [hG1, mem_ids_insertBeforeId, hmem0 m]
  have hmem2 : ∀ m, m ∈ G2.ids ↔ m = (b + 2) ∨ m = (b + 1) ∨ m = b ∨ m ∈ g.ids := fun m => by
    rw [hG2, mem_ids_insertBeforeId, hmem1 m]
  have hmem3 : ∀ m, m ∈ G3.ids ↔ m = (b + 3) ∨ m = (b + 2) ∨ m = (b + 1) ∨ m = b ∨ m ∈ g.ids := fun m => by
    rw [hG3, mem_ids_insertBeforeId, hmem2 m]
  have hmem4 : ∀ m, m ∈ G4.ids ↔ m = (b + 4) ∨ m = (b + 3) ∨ m = (b + 2) ∨ m = (b + 1) ∨ m = b ∨ m ∈ g.ids := fun m => by
    rw [hG4, mem_ids_insertBeforeId, hmem3 m]
  have hmem5 : ∀ m, m ∈ G5.ids ↔ m = (b + 5) ∨ m = (b + 4) ∨ m = (b + 3) ∨ m = (b + 2) ∨ m = (b + 1) ∨ m = b ∨ m ∈ g.ids := fun m => by
    rw [hG5, mem_ids_insertBeforeId, hmem4 m]
  have hmem6 : ∀ m, m ∈ G6.ids ↔ m = (b + 6) ∨ m = (b + 5) ∨ m = (b + 4) ∨ m = (b + 3) ∨ m = (b + 2) ∨ m = (b + 1) ∨ m = b ∨ m ∈ g.ids := fun m => by
    rw [hG6, mem_ids_insertBeforeId, hmem5 m]
  have hmem7 : ∀ m, m ∈ G7.ids ↔ m = (b + 7) ∨ m = (b + 6) ∨ m = (b + 5) ∨ m = (b + 4) ∨ m = (b + 3) ∨ m = (b + 2) ∨ m = (b + 1) ∨ m = b ∨ m ∈ g.ids := fun m => by
    rw [hG7, mem_ids_insertBeforeId, hmem6 m]
  have hmem8 : ∀ m, m ∈ G8.ids ↔ m = (b + 8) ∨ m = (b + 7) ∨ m = (b + 6) ∨ m = (b + 5) ∨ m = (b + 4) ∨ m = (b + 3) ∨ m = (b + 2) ∨ m = (b + 1) ∨ m = b ∨ m ∈ g.ids := fun m => by
    rw [hG8, mem_ids_insertBeforeId, hmem7 m]
  have hni0 : b ∉ g.ids := hfresh_notin b (by omega)
  have hni1 : b + 1 ∉ G0.ids := by
    intro hm
    rw [hmem0 (b + 1)] at hm
    rcases hm with h | h
    · omega
    · exact hfresh_notin (b + 1) (by omega) h
  have hni2 : b + 2 ∉ G1.ids := by
    intro hm
    rw [hmem1 (b + 2)] at hm
    rcases hm with h | h | h
    · omega
    · omega
    · exact hfresh_notin (b + 2) (by omega) h
  have hni3 : b + 3 ∉ G2.ids := by
    intro hm
    rw [hmem2 (b + 3)] at hm
    rcases hm with h | h | h | h
    · omega
    · omega
    · omega
    · exact hfresh_notin (b + 3) (by omega) h
  have hni4 : b + 4 ∉ G3.ids := by
    intro hm
    rw [hmem3 (b + 4)] at hm
    rcases hm with h | h | h | h | h
    · omega
    · omega
    · omega
    · omega
    · exact hfresh_notin (b + 4) (by omega) h
  have hni5 : b + 5 ∉ G4.ids := by
    intro hm
    rw [hmem4 (b + 5)] at hm
    rcases hm with h | h | h | h | h | h
    · omega
    · omega
    · omega
    · omega
    · omega
    · exact hfresh_notin (b + 5) (by omega) h
  have hni6 : b + 6 ∉ G5.ids := by
    intro hm
    rw [hmem5 (b + 6)] at hm
    rcases hm with h | h | h | h | h | h | h
    · omega
    · omega
    · omega
    · omega
    · omega
    · omega
    · exact hfresh_notin (b + 6) (by omega) h
  have hni7 : b + 7 ∉ G6.ids := by
    intro hm
    rw [hmem6 (b + 7)] at hm
    rcases hm with h | h | h | h | h | h | h | h
    · omega
    · omega
    · omega
    · omega
    · omega
    · omega
    · omega
    · exact hfresh_notin (b + 7) (by omega) h
  have hni8 : b + 8 ∉ G7.ids := by
    intro hm
    rw [hmem7 (b + 8)] at hm
    rcases hm with h | h | h | h | h | h | h | h | h
    · omega
    · omega
    · omega
    · omega
    · omega
    · omega
    · omega
    · omega
    · exact hfresh_notin (b + 8) (by omega) h
  have hnd0 : G0.ids.Nodup := by rw [hG0]; exact nodup_ids_insert _ _ _ _ hnd hni0
  have hnd1 : G1.ids.Nodup := by rw [hG1]; exact nodup_ids_insert _ _ _ _ hnd0 hni1
  have hnd2 : G2.ids.Nodup := by rw [hG2]; exact nodup_ids_insert _ _ _ _ hnd1 hni2
  have hnd3 : G3.ids.Nodup := by rw [hG3]; exact nodup_ids_insert _ _ _ _ hnd2 hni3
  have hnd4 : G4.ids.Nodup := by rw [hG4]; exact nodup_ids_insert _ _ _ _ hnd3 hni4
  have hnd5 : G5.ids.Nodup := by rw [hG5]; exact nodup_ids_insert _ _ _ _ hnd4 hni5
  have hnd6 : G6.ids.Nodup := by rw [hG6]; exact nodup_ids_insert _ _ _ _ hnd5 hni6
  have hnd7 : G7.ids.Nodup := by rw [hG7]; exact nodup_ids_insert _ _ _ _ hnd6 hni7
  have hnd8 : G8.ids.Nodup := by rw [hG8]; exact nodup_ids_insert _ _ _ _ hnd7 hni8
  have hnd9 : G9.ids.Nodup := hnd8
  have hnd10 : G10.ids.Nodup := by rw [hG10, mem_ids_modifyNode]; exact hnd9
  have hf0 : ∀ m, G0.find m = if m = b then some N0 else g.find m := fun m => by
    rw [hG0]; exact find_insertBeforeId g nid b N0 m hni0
  have hf1 : ∀ m, G1.find m = if m = b + 1 then some N1 else G0.find m := fun m => by
    rw [hG1]; exact find_insertBeforeId G0 nid (b + 1) N1 m hni1
  have hf2 : ∀ m, G2.find m = if m = b + 2 then some N2 else G1.find m := fun m => by
    rw [hG2]; exact find_insertBeforeId G1 nid (b + 2) N2 m hni2
  have hf3 : ∀ m, G3.find m = if m = b + 3 then some N3 else G2.find m := fun m => by
    rw [hG3]; exact find_insertBeforeId G2 nid (b + 3) N3 m hni3
  have hf4 : ∀ m, G4.find m = if m = b + 4 then some N4 else G3.find m := fun m => by
    rw [hG4]; exact find_insertBeforeId G3 nid (b + 4) N4 m hni4
  have hf5 : ∀ m, G5.find m = if m = b + 5 then some N5 else G4.find m := fun m => by
    rw [hG5]; exact find_insertBeforeId G4 nid (b + 5) N5 m hni5
  have hf6 : ∀ m, G6.find m = if m = b + 6 then some N6 else G5.find m := fun m => by
    rw [hG6]; exact find_insertBeforeId G5 nid (b + 6) N6 m hni6
  have hf7 : ∀ m, G7.find m = if m = b + 7 then some N7 else G6.find m := fun m => by
    rw [hG7]; exact find_insertBeforeId G6 nid (b + 7) N7 m hni7
  have hf8 : ∀ m, G8.find m = if m = b + 8 then some N8 else G7.find m := fun m => by
    rw [hG8]; exact find_insertBeforeId G7 nid (b + 8) N8 m hni8
  have hf9 : ∀ m, G9.find m = G8.find m := fun m => rfl
  have hf10 : ∀ m, G10.find m = if m = nid then (G9.find m).map (fun m => { m with inputs := m.inputs.set inputIndex (.out (b + 8) 0) }) else G9.find m := fun m => by
    rw [hG10]; exact find_modifyNode G9 nid _ m
  have hfind_nid9 : G9.find nid = some n := by
    rw [hf9 nid, hf8 nid, if_neg (show ¬(nid = b + 8) by omega), hf7 nid, if_neg (show ¬(nid = b + 7) by omega), hf6 nid, if_neg (show ¬(nid = b + 6) by omega), hf5 nid, if_neg (show ¬(nid = b + 5) by omega), hf4 nid, if_neg (show ¬(nid = b + 4) by omega), hf3 nid, if_neg (show ¬(nid = b + 3) by omega), hf2 nid, if_neg (show ¬(nid = b + 2) by omega), hf1 nid, if_neg (show ¬(nid = b + 1) by omega), hf0 nid, if_neg (show ¬(nid = b) by omega)]
    exact hn
  have hfind_nid10 : G10.find nid = some { n with inputs := n.inputs.set inputIndex (.out (b + 8) 0) } := by
    rw [hf10 nid, if_pos rfl, hfind_nid9]
    rfl
  have hfind_other : ∀ c, c < b → c ≠ nid → G10.find c = g.find c := by
    intro c hcb hcn
    rw [hf10 c, if_neg hcn, hf9 c, hf8 c, if_neg (show ¬(c = b + 8) by omega), hf7 c, if_neg (show ¬(c = b + 7) by omega), hf6 c, if_neg (show ¬(c = b + 6) by omega), hf5 c, if_neg (show ¬(c = b + 5) by omega), hf4 c, if_neg (show ¬(c = b + 4) by omega), hf3 c, if_neg (show ¬(c = b + 3) by omega), hf2 c, if_neg (show ¬(c = b + 2) by omega), hf1 c, if_neg (show ¬(c = b + 1) by omega), hf0 c, if_neg (show ¬(c = b) by omega)]
  have hfind_b7 : G10.find (b + 7) = some N7 := by
    rw [hf10 (b + 7), if_neg (show ¬(b + 7 = nid) by omega), hf9 (b + 7), hf8 (b + 7), if_neg (show ¬(b + 7 = b + 8) by omega), hf7 (b + 7), if_pos rfl]
  have hfind_b8 : G10.find (b + 8) = some N8 := by
    rw [hf10 (b + 8), if_neg (show ¬(b + 8 = nid) by omega), hf9 (b + 8), hf8 (b + 8), if_pos rfl]
  have hchar : ∀ c m', G10.find c = some m' → (c = nid ∧ m' = { n with inputs := n.inputs.set inputIndex (.out (b + 8) 0) }) ∨ (c = b ∧ m' = N0) ∨ (c = b + 1 ∧ m' = N1) ∨ (c = b + 2 ∧ m' = N2) ∨ (c = b + 3 ∧ m' = N3) ∨ (c = b + 4 ∧ m' = N4) ∨ (c = b + 5 ∧ m' = N5) ∨ (c = b + 6 ∧ m' = N6) ∨ (c = b + 7 ∧ m' = N7) ∨ (c = b + 8 ∧ m' = N8) ∨ (c ≠ nid ∧ g.find c = some m') := by
    intro c m' hm
    by_cases hc : c = nid
    · subst hc
      rw [hfind_nid10, Option.some.injEq] at hm
      exact Or.inl ⟨rfl, hm.symm⟩
    · rw [hf10 c, if_neg hc, hf9 c] at hm
      rw [hf8 c] at hm
      by_cases hc8 : c = b + 8
      · rw [if_pos hc8, Option.some.injEq] at hm
        exact Or.inr (Or.inr (Or.inr (Or.inr (Or.inr (Or.inr (Or.inr (Or.inr (Or.inr (Or.inl ⟨hc8, hm.symm⟩)))))))))
      rw [if_neg hc8] at hm
      rw [hf7 c] at hm
      by_cases hc7 : c = b + 7
      · rw [if_pos hc7, Option.some.injEq] at hm
        exact Or.inr (Or.inr (Or.inr (Or.inr (Or.inr (Or.inr (Or.inr (Or.inr (Or.inl ⟨hc7, hm.symm⟩))))))))
      rw [if_neg hc7] at hm
      rw [hf6 c] at hm
      by_cases hc6 : c = b + 6
      · rw [if_pos hc6, Option.some.injEq] at hm
        exact Or.inr (Or.inr (Or.inr (Or.inr (Or.inr (Or.inr (Or.inr (Or.inl ⟨hc6, hm.symm⟩)))))))
      rw [if_neg hc6] at hm
      rw [hf5 c] at hm
      by_cases hc5 : c = b + 5
      · rw [if_pos hc5, Option.some.injEq] at hm
        exact Or.inr (Or.inr (Or.inr (Or.inr (Or.inr (Or.inr (Or.inl ⟨hc5, hm.symm⟩))))))
      rw [if_neg hc5] at hm
      rw [hf4 c] at hm
      by_cases hc4 : c = b + 4
      · rw [if_pos hc4, Option.some.injEq] at hm
        exact Or.inr (Or.inr (Or.inr (Or.inr (Or.inr (Or.inl ⟨hc4, hm.symm⟩)))))
      rw [if_neg hc4] at hm
      rw [hf3 c] at hm
      by_cases hc3 : c = b + 3
      · rw [if_pos hc3, Option.some.injEq] at hm
        exact Or.inr (Or.inr (Or.inr (Or.inr (Or.inl ⟨hc3, hm.symm⟩))))
      rw [if_neg hc3] at hm
      rw [hf2 c] at hm
      by_cases hc2 : c = b + 2
      · rw [if_pos hc2, Option.some.injEq] at hm
        exact Or.inr (Or.inr (Or.inr (Or.inl ⟨hc2, hm.symm⟩)))
      rw [if_neg hc2] at hm
      rw [hf1 c] at hm
      by_cases hc1 : c = b + 1
      · rw [if_pos hc1, Option.some.injEq] at hm
        exact Or.inr (Or.inr (Or.inl ⟨hc1, hm.symm⟩))
      rw [if_neg hc1] at hm
      rw [hf0 c] at hm
      by_cases hc0 : c = b
      · rw [if_pos hc0, Option.some.injEq] at hm
        exact Or.inr (Or.inl ⟨hc0, hm.symm⟩)
      rw [if_neg hc0] at hm
      exact Or.inr (Or.inr (Or.inr (Or.inr (Or.inr (Or.inr (Or.inr (Or.inr (Or.inr (Or.inr (⟨hc, hm⟩))))))))))
  have husesnil : g.usesOf (.out pid k) = [(nid, inputIndex)] → G10.usesOf (.out pid k) = [] := by
    intro hA
    rw [usesOf_nil_iff_find G10 _ hnd10]
    intro c i m' hm hget
    rcases hchar c m' hm with ⟨hc, hm'⟩ | ⟨hc, hm'⟩ | ⟨hc, hm'⟩ | ⟨hc, hm'⟩ | ⟨hc, hm'⟩ |
      ⟨hc, hm'⟩ | ⟨hc, hm'⟩ | ⟨hc, hm'⟩ | ⟨hc, hm'⟩ | ⟨hc, hm'⟩ | ⟨hc, hmg⟩
    · subst hm'
      replace hget : (n.inputs.set inputIndex (.out (b + 8) 0)).get? i =
          some (.out pid k) := hget
      by_cases hi : inputIndex = i
      · subst hi
        rw [List.get?_set, if_pos rfl, hini] at hget
        replace hget : some (VRef.out (b + 8) 0) = some (VRef.out pid k) := hget
        rw [Option.some.injEq, VRef.out.injEq] at hget
        omega
      · rw [List.get?_set_ne _ _ hi] at hget
        have hmem : (nid, i) ∈ g.usesOf (.out pid k) :=
          (mem_usesOf_iff g _ nid i).mpr ⟨n, mem_nodes_of_find g nid n hn, hget⟩
        rw [hA, List.mem_singleton, Prod.mk.injEq] at hmem
        exact hi hmem.2.symm
    · subst hm'
      rw [hN0] at hget
      simp only at hget
      have hv := List.get?_mem hget
      rw [List.mem_singleton] at hv
      obtain ⟨y, hy⟩ : ∃ y, n.inputs.get? 0 = some y := by
        cases hys : n.inputs.get? 0 with
        | none => rw [List.get?_eq_none] at hys; omega
        | some y => exact ⟨y, rfl⟩
      have hgd : n.inputs.getD 0 (.gin 0) = y := by
        rw [List.getD_eq_getElem?_getD, ← List.get?_eq_getElem?, hy]
        rfl
      have hmem : (nid, 0) ∈ g.usesOf (.out pid k) :=
        (mem_usesOf_iff g _ nid 0).mpr ⟨n, mem_nodes_of_find g nid n hn,
          by rw [hy, ← hgd, ← hv]⟩
      rw [hA, List.mem_singleton, Prod.mk.injEq] at hmem
      omega
    · subst hm'
      rw [hN1] at hget
      simp at hget
    · subst hm'
      rw [hN2] at hget
      have hv := List.get?_mem hget
      simp only [List.mem_cons, List.mem_singleton, List.not_mem_nil, or_false,
        VRef.out.injEq] at hv
      omega
    · subst hm'
      rw [hN3] at hget
      have hv := List.get?_mem hget
      simp only [List.mem_singleton, VRef.out.injEq] at hv
      omega
    · subst hm'
      rw [hN4] at hget
      simp at hget
    · subst hm'
      rw [hN5] at hget
      simp at hget
    · subst hm'
      rw [hN6] at hget
      have hv := List.get?_mem hget
      simp only [List.mem_singleton, VRef.out.injEq] at hv
      omega
    · subst hm'
      rw [hN7] at hget
      have hv := List.get?_mem hget
      simp only [List.mem_cons, List.mem_singleton, List.not_mem_nil, or_false,
        VRef.out.injEq] at hv
      omega
    · subst hm'
      rw [hN8] at hget
      have hv := List.get?_mem hget
      simp only [List.mem_singleton, VRef.out.injEq] at hv
      omega
    · have hmem : (c, i) ∈ g.usesOf (.out pid k) :=
        (mem_usesOf_iff g _ c i).mpr ⟨m', mem_nodes_of_find g c m' hmg, hget⟩
      rw [hA, List.mem_singleton, Prod.mk.injEq] at hmem
      exact hc hmem.1
  have husesne : (∃ u ∈ g.usesOf (.out pid k), u ≠ (nid, inputIndex)) →
      G10.usesOf (.out pid k) ≠ [] := by
    rintro ⟨⟨c, i⟩, hu, hne⟩
    obtain ⟨m, hmmem, hget⟩ := (mem_usesOf_iff g _ c i).mp hu
    have hcfind : g.find c = some m := find_of_mem_nodes g c m hnd hmmem
    have hcb : c < b := hfr c (mem_ids_of_find g c m hcfind)
    by_cases hc : c = nid
    · have hmn : m = n := by
        rw [hc] at hcfind
        rw [hcfind, Option.some.injEq] at hn
        exact hn
      have hine : i ≠ inputIndex := fun hcontra => hne (by rw [hc, hcontra])
      intro hnil
      rw [usesOf_nil_iff_find G10 _ hnd10] at hnil
      refine hnil nid i _ hfind_nid10 ?_
      replace hget : n.inputs.get? i = some (.out pid k) := by
        rw [← hmn]
        exact hget
      show (n.inputs.set inputIndex (.out (b + 8) 0)).get? i = some (.out pid k)
      rw [List.get?_set_ne _ _ (fun hcc => hine hcc.symm)]
      exact hget
    · intro hnil
      rw [usesOf_nil_iff_find G10 _ hnd10] at hnil
      exact hnil c i m (by rw [hfind_other c hcb hc]; exact hcfind) hget
  have hneqref : (.out (b + 8) 0 : VRef) ≠ .out pid k := by
    intro hcontra
    rw [VRef.out.injEq] at hcontra
    omega
  have hinputAt10 : G10.inputAt nid inputIndex = some (.out (b + 8) 0) := by
    unfold Graph.inputAt
    rw [hfind_nid10]
    show ({ n with inputs := n.inputs.set inputIndex (.out (b + 8) 0) } : Node).inputs.get? inputIndex = some _
    simp only
    rw [List.get?_set, if_pos rfl, hini]
    rfl
  by_cases hcase : (G10.usesOf (.out pid k)).isEmpty
  · refine ⟨G10.destroy pid, by rw [if_pos hcase], ?_, hneqref, ?_, ?_, ?_, ?_, ?_⟩
    · unfold Graph.inputAt
      rw [find_destroy, if_neg (show ¬(nid = pid) from fun h => hpn h.symm), hfind_nid10]
      show ({ n with inputs := n.inputs.set inputIndex (.out (b + 8) 0) } : Node).inputs.get? inputIndex = some _
      simp only
      rw [List.get?_set, if_pos rfl, hini]
      rfl
    · rw [find_destroy, if_neg (show ¬(b + 8 = pid) by omega), hfind_b8, hN8]
      rfl
    · rw [find_destroy, if_neg (show ¬(b + 8 = pid) by omega), hfind_b8, hN8]
      rfl
    · rw [find_destroy, if_neg (show ¬(b + 7 = pid) by omega), hfind_b7, hN7]
      rfl
    · intro hA
      rw [find_destroy, if_pos rfl]
    · intro hB
      rw [List.isEmpty_iff] at hcase
      exact absurd hcase (husesne hB)
  · refine ⟨G10, by rw [if_neg hcase], hinputAt10, hneqref, ?_, ?_, ?_, ?_, ?_⟩
    · rw [hfind_b8, hN8]
      rfl
    · rw [hfind_b8, hN8]
      rfl
    · rw [hfind_b7, hN7]
      rfl
    · intro hA
      rw [List.isEmpty_iff] at hcase
      exact absurd (husesnil hA) hcase
    · intro hB
      rw [hfind_other pid hpidb hpn]
      exact hp

theorem usesOf_replaceAllUses_ne (g : Graph) (o v u : VRef) (ho : u ≠ o) (hv : u ≠ v) :
    (g.replaceAllUses o v).usesOf u = g.usesOf u := by
  unfold Graph.usesOf Graph.replaceAllUses
  simp only
  rw [List.flatMap_map]
  apply List.flatMap_congr
  intro q hq
  simp only [Node.mapInputs]
  rw [List.length_map]
  congr 1
  apply List.filter_congr
  intro i hi
  rw [decide_eq_decide]
  rw [List.get?_map]
  constructor
  · intro h
    rw [Option.map_eq_some'] at h
    obtain ⟨r, hr, hre⟩ := h
    unfold subst at hre
    by_cases hcase : r = o
    · rw [if_pos hcase] at hre
      exact absurd hre.symm hv
    · rw [if_neg hcase] at hre
      rw [← hre]
      exact hr
  · intro h
    rw [h]
    simp only [Option.map_some']
    unfold subst
    rw [if_neg (show ¬(u = o) from ho)]

theorem ids_insertAfterId_perm (g : Graph) (a nid : Nat) (n : Node) :
    (g.insertAfterId a nid n).ids.Perm (nid :: g.ids) := by
  unfold Graph.insertAfterId Graph.ids
  cases hd : g.nodes.dropWhile (fun p => p.1 ≠ a) with
  | nil =>
    simp only [List.map_append, List.map_cons, List.map_nil]
    have hT : (List.map (fun p => p.1) g.nodes) =
        List.map (fun p => p.1) (g.nodes.takeWhile (fun p => p.1 ≠ a)) := by
      conv_lhs => rw [← List.takeWhile_append_dropWhile (fun p => p.1 ≠ a) g.nodes, hd]
      rw [List.append_nil]
    rw [hT]
    simpa using @List.perm_middle _ nid
      (List.map (fun p => p.1) (g.nodes.takeWhile (fun p => p.1 ≠ a))) []
  | cons q rest =>
    simp only [List.map_append, List.map_cons]
    have hsplit : List.map (fun p => p.1) g.nodes =
        List.map (fun p => p.1) (g.nodes.takeWhile (fun p => p.1 ≠ a)) ++
          q.1 :: List.map (fun p => p.1) rest := by
      conv_lhs => rw [← List.takeWhile_append_dropWhile (fun p => p.1 ≠ a) g.nodes, hd]
      rw [List.map_append, List.map_cons]
    rw [hsplit]
    simpa using @List.perm_middle _ nid
      (List.map (fun p => p.1) (g.nodes.takeWhile (fun p => p.1 ≠ a)) ++ [q.1])
      (List.map (fun p => p.1) rest)

theorem nodup_ids_insertAfter (g : Graph) (a nid : Nat) (n : Node)
    (h1 : g.ids.Nodup) (h2 : nid ∉ g.ids) : (g.insertAfterId a nid n).ids.Nodup := by
  rw [(ids_insertAfterId_perm g a nid n).nodup_iff]
  exact List.nodup_cons.mpr ⟨h2, h1⟩

theorem nodup_ids_destroy (g : Graph) (nid : Nat) (h : g.ids.Nodup) :
    (g.destroy nid).ids.Nodup := by
  have hsub : (g.destroy nid).ids.Sublist g.ids := by
    unfold Graph.destroy Graph.ids
    exact (List.filter_sublist g.nodes).map (fun p => p.1)
  exact hsub.nodup h

theorem dropWhile_split_at (l : List (Nat × Node)) (a : Nat) (m : Node)
    (hmem : (a, m) ∈ l) :
    ∃ q l2, l.dropWhile (fun p => p.1 ≠ a) = q :: l2 ∧ q.1 = a := by
  induction l with
  | nil => simp at hmem
  | cons x xs ih =>
    by_cases hx : x.1 = a
    · exact ⟨x, xs, by rw [List.dropWhile_cons, if_neg (by simp [hx])], hx⟩
    · rw [List.dropWhile_cons, if_pos (by simp [hx])]
      apply ih
      rcases List.mem_cons.mp hmem with hc | hc
      · exact absurd (congrArg Prod.fst hc.symm) hx
      · exact hc

theorem pushPack_transform (g : Graph) (nid rnnId rpos : Nat) (n rnn : Node)
    (hnd : g.ids.Nodup)
    (hfr : ∀ i ∈ g.ids, i < g.fresh)
    (hrefsB : ∀ q ∈ g.nodes, ∀ r ∈ q.2.inputs, refBound g.fresh r = true)
    (hn : g.find nid = some n)
    (hnk : n.kind = .PackPadded)
    (hno : n.nOutputs = 2)
    (hni : n.inputs.length = 2)
    (huse : g.usesOf (.out nid 0) = [(rnnId, rpos)])
    (hrnn : g.find rnnId = some rnn)
    (hrk : isRNNKind rnn.kind = true)
    (hne : rnnId ≠ nid)
    (hselfnB : noInputFrom nid n = true)
    (hrnnnB : noInputFrom rnnId n = true)
    (huse1 : g.usesOf (.out nid 1) ≠ []) :
    ∃ g', pushPackingPastRnnStep g nid = .ok g' ∧
      g'.find nid = none ∧
      g'.find g.fresh = some (pushedPackNode rnnId (n.inputs.getD 1 (.gin 0))) ∧
      (∃ l1 l2 rn, g'.nodes =
        l1 ++ (rnnId, rn) :: (g.fresh, pushedPackNode rnnId (n.inputs.getD 1 (.gin 0))) :: l2) ∧
      g'.inputAt rnnId rpos = some (n.inputs.getD 0 (.gin 0)) ∧
      (∀ c i, (c, i) ∈ g'.usesOf (.out g.fresh 0) ↔ (c, i) ∈ g.usesOf (.out rnnId 0)) ∧
      (∀ c i, (c, i) ∈ g.usesOf (.out nid 1) →
        g'.inputAt c i = some (n.inputs.getD 1 (.gin 0)) ∨
        g'.inputAt c i = some (.out g.fresh 1)) := by
  obtain ⟨w, hw⟩ := Option.isSome_iff_exists.mp (List.head?_isSome.mpr huse1)
  have hselfn : ∀ kk, (VRef.out nid kk) ∉ n.inputs := by
    intro kk hmem
    have hall := hselfnB
    unfold noInputFrom at hall
    rw [List.all_eq_true] at hall
    have hv := hall _ hmem
    simp at hv
  have hrnnn : ∀ kk, (VRef.out rnnId kk) ∉ n.inputs := by
    intro kk hmem
    have hall := hrnnnB
    unfold noInputFrom at hall
    rw [List.all_eq_true] at hall
    have hv := hall _ hmem
    simp at hv
  have hrefs : ∀ q ∈ g.nodes, ∀ r ∈ q.2.inputs, ∀ j kk, r = VRef.out j kk → j < g.fresh := by
    intro q hq r hr j kk hjk
    have hb := hrefsB q hq r hr
    rw [hjk] at hb
    unfold refBound at hb
    simpa using hb
  have hnidb : nid < g.fresh := hfr nid (mem_ids_of_find g nid n hn)
  have hrnnb : rnnId < g.fresh := hfr rnnId (mem_ids_of_find g rnnId rnn hrnn)
  have hin0mem : n.inputs.getD 0 (.gin 0) ∈ n.inputs := by
    have h0 : 0 < n.inputs.length := by omega
    rw [List.getD_eq_getElem?_getD, List.getElem?_eq_getElem h0]
    exact List.getElem_mem h0
  have hin1mem : n.inputs.getD 1 (.gin 0) ∈ n.inputs := by
    have h1 : 1 < n.inputs.length := by omega
    rw [List.getD_eq_getElem?_getD, List.getElem?_eq_getElem h1]
    exact List.getElem_mem h1
  have hu1eq : (g.replaceAllUses (.out nid 0) (n.inputs.getD 0 (.gin 0))).usesOf
      (.out nid 1) = g.usesOf (.out nid 1) := by
    apply usesOf_replaceAllUses_ne
    · intro hc
      rw [VRef.out.injEq] at hc
      omega
    · intro hc
      exact hselfn 1 (hc ▸ hin0mem)
  set σ1 := subst (VRef.out nid 0) (n.inputs.getD 0 (.gin 0)) with hσ1
  set G1 := g.replaceAllUses (VRef.out nid 0) (n.inputs.getD 0 (.gin 0)) with hG1
  set A1 := ((G1.find nid).map (fun m => m.inputs.getD 1 (.gin 0))).getD (.gin 0) with hA1
  set G2 := G1.modifyNode w.1 (fun m => { m with inputs := m.inputs.set w.2 A1 }) with hG2
  set NP : Node := { kind := .PackPadded, inputs := [], nOutputs := 2, outMeta := [none, none] } with hNP
  set G3 : Graph := { (G2.insertAfterId rnnId G2.fresh NP) with fresh := G2.fresh + 1 } with hG3
  set G4 := G3.replaceAllUses (.out rnnId 0) (.out G2.fresh 0) with hG4
  set G5 := G4.replaceAllUses (.out nid 1) (.out G2.fresh 1) with hG5
  set B1 := ((G5.find nid).map (fun m => m.inputs.getD 1 (.gin 0))).getD (.gin 0) with hB1
  set G6 := G5.modifyNode G2.fresh (fun m =>
    { m with inputs := m.inputs ++ [.out rnnId 0, B1] }) with hG6
  have hstep : pushPackingPastRnnStep g nid = .ok (G6.destroy nid) := by
    unfold pushPackingPastRnnStep
    simp only [hn, hnk, reduceIte, huse, List.length_cons, List.length_nil, List.head?_cons,
      hrnn, hrk, if_true]
    rw [show ((g.replaceAllUses (VRef.out nid 0)
        (n.inputs.getD 0 (VRef.gin 0))).usesOf (VRef.out nid 1)).head? = some w from by
      rw [hu1eq]; exact hw]
    simp only [if_neg (show ¬(n.inputs.length < 2 ∨ n.nOutputs < 2) by omega)]
    rfl
  set σ4 := subst (VRef.out rnnId 0) (VRef.out G2.fresh 0) with hσ4
  set σ5 := subst (VRef.out nid 1) (VRef.out G2.fresh 1) with hσ5
  have hf2 : G2.fresh = g.fresh := rfl
  have hsubst_eq : ∀ (o v : VRef), subst o v o = v := fun o v => by
    unfold subst; rw [if_pos rfl]
  have hsubst_ne : ∀ (o v r : VRef), r ≠ o → subst o v r = r := fun o v r h => by
    unfold subst; rw [if_neg h]
  have hnmem : (nid, n) ∈ g.nodes := mem_nodes_of_find g nid n hn
  have hin0b : ∀ j k, n.inputs.getD 0 (VRef.gin 0) = VRef.out j k → j < g.fresh :=
    fun j k h => hrefs (nid, n) hnmem _ hin0mem j k h
  have hin1b : ∀ j k, n.inputs.getD 1 (VRef.gin 0) = VRef.out j k → j < g.fresh :=
    fun j k h => hrefs (nid, n) hnmem _ hin1mem j k h
  have hin0_ne_rnn : n.inputs.getD 0 (VRef.gin 0) ≠ VRef.out rnnId 0 := fun hc =>
    hrnnn 0 (by rw [← hc]; exact hin0mem)
  have hin1_ne_rnn : n.inputs.getD 1 (VRef.gin 0) ≠ VRef.out rnnId 0 := fun hc =>
    hrnnn 0 (by rw [← hc]; exact hin1mem)
  have hin0_ne_nid1 : n.inputs.getD 0 (VRef.gin 0) ≠ VRef.out nid 1 := fun hc =>
    hselfn 1 (by rw [← hc]; exact hin0mem)
  have hin1_ne_nid1 : n.inputs.getD 1 (VRef.gin 0) ≠ VRef.out nid 1 := fun hc =>
    hselfn 1 (by rw [← hc]; exact hin1mem)
  have hwmem : w ∈ g.usesOf (VRef.out nid 1) := by
    cases hl : g.usesOf (VRef.out nid 1) with
    | nil => rw [hl] at hw; exact absurd hw (by simp)
    | cons a t =>
      rw [hl] at hw
      simp only [List.head?_cons, Option.some.injEq] at hw
      rw [← hw]
      exact List.mem_cons_self a t
  obtain ⟨wm, hwm_mem, hwm_get⟩ := (mem_usesOf_iff g (VRef.out nid 1) w.1 w.2).mp
    (by rw [Prod.mk.eta]; exact hwmem)
  have hwm_find : g.find w.1 = some wm := find_of_mem_nodes g w.1 wm hnd hwm_mem
  have hwn : w.1 ≠ nid := by
    intro hc
    have h' := hwm_find
    rw [hc, hn, Option.some.injEq] at h'
    exact hselfn 1 (List.get?_mem (by rw [h']; exact hwm_get))
  -- find characterizations through each intermediate graph
  have hG1f : ∀ m, G1.find m = (g.find m).map (Node.mapInputs σ1) := fun m => by
    rw [hG1, hσ1]; exact find_replaceAllUses g _ _ m
  have hG2f2 : ∀ m, G2.find m = if m = w.1 then
      (G1.find m).map (fun nd => { nd with inputs := nd.inputs.set w.2 A1 }) else G1.find m :=
    fun m => by rw [hG2]; exact find_modifyNode G1 w.1 _ m
  have hidsG1 : G1.ids = g.ids := by rw [hG1]; exact mem_ids_replaceAllUses g _ _
  have hidsG2 : G2.ids = g.ids := by rw [hG2, mem_ids_modifyNode, hidsG1]
  have hfreshnot : G2.fresh ∉ G2.ids := by
    rw [hidsG2, hf2]
    intro hc
    exact absurd (hfr _ hc) (lt_irrefl _)
  have hG3f : ∀ m, G3.find m = if m = G2.fresh then some NP else G2.find m := by
    intro m
    rw [hG3]
    show (G2.insertAfterId rnnId G2.fresh NP).find m = _
    exact find_insertAfterId G2 rnnId G2.fresh NP m hfreshnot
  have hG4f : ∀ m, G4.find m = (G3.find m).map (Node.mapInputs σ4) := fun m => by
    rw [hG4, hσ4]; exact find_replaceAllUses G3 _ _ m
  have hG5f : ∀ m, G5.find m = (G4.find m).map (Node.mapInputs σ5) := fun m => by
    rw [hG5, hσ5]; exact find_replaceAllUses G4 _ _ m
  have hG6f : ∀ m, G6.find m = if m = G2.fresh then
      (G5.find m).map (fun nd => { nd with inputs := nd.inputs ++ [VRef.out rnnId 0, B1] })
      else G5.find m := fun m => by
    rw [hG6]; exact find_modifyNode G5 G2.fresh _ m
  -- the packing node n is untouched until its destruction
  have hmapfix : ∀ (o v : VRef), (∀ r ∈ n.inputs, r ≠ o) → n.mapInputs (subst o v) = n := by
    intro o v h
    unfold Node.mapInputs
    have hmap : n.inputs.map (subst o v) = n.inputs := by
      conv_rhs => rw [← List.map_id n.inputs]
      exact List.map_congr_left (fun a ha => by unfold subst; rw [if_neg (h a ha)]; rfl)
    rw [hmap]
  have hσ1fix : n.mapInputs σ1 = n := by
    rw [hσ1]
    exact hmapfix _ _ (fun r hr hc => hselfn 0 (by rw [← hc]; exact hr))
  have hσ4fixn : n.mapInputs σ4 = n := by
    rw [hσ4]
    exact hmapfix _ _ (fun r hr hc => hrnnn 0 (by rw [← hc]; exact hr))
  have hσ5fixn : n.mapInputs σ5 = n := by
    rw [hσ5]
    exact hmapfix _ _ (fun r hr hc => hselfn 1 (by rw [← hc]; exact hr))
  have hG1n : G1.find nid = some n := by rw [hG1f nid, hn, Option.map_some', hσ1fix]
  have hA1v : A1 = n.inputs.getD 1 (VRef.gin 0) := by
    rw [hA1, hG1n]
    rfl
  have hG2n : G2.find nid = some n := by
    rw [hG2f2 nid, if_neg (fun hc : nid = w.1 => hwn hc.symm), hG1n]
  have hnid_ne_fresh : nid ≠ G2.fresh := by rw [hf2]; omega
  have hG3n : G3.find nid = some n := by rw [hG3f nid, if_neg hnid_ne_fresh, hG2n]
  have hG4n : G4.find nid = some n := by rw [hG4f nid, hG3n, Option.map_some', hσ4fixn]
  have hG5n : G5.find nid = some n := by rw [hG5f nid, hG4n, Option.map_some', hσ5fixn]
  have hB1v : B1 = n.inputs.getD 1 (VRef.gin 0) := by rw [hB1, hG5n]; rfl
  -- the synthesized pack node through the chain
  have hNPfix : ∀ f : VRef → VRef, NP.mapInputs f = NP := by
    intro f
    rw [hNP]
    rfl
  have hG3p : G3.find G2.fresh = some NP := by rw [hG3f, if_pos rfl]
  have hG4p : G4.find G2.fresh = some NP := by rw [hG4f, hG3p, Option.map_some', hNPfix]
  have hG5p : G5.find G2.fresh = some NP := by rw [hG5f, hG4p, Option.map_some', hNPfix]
  have hG6p : G6.find G2.fresh = some (pushedPackNode rnnId B1) := by
    rw [hG6f, if_pos rfl, hG5p, Option.map_some']
    rw [hNP]
    rfl
  have hfresh_ne_nid : G2.fresh ≠ nid := fun hc => hnid_ne_fresh hc.symm
  have hfind_nid' : (G6.destroy nid).find nid = none := by rw [find_destroy, if_pos rfl]
  have hfind_pack' : (G6.destroy nid).find G2.fresh = some (pushedPackNode rnnId B1) := by
    rw [find_destroy, if_neg hfresh_ne_nid, hG6p]
  have c_pack : (G6.destroy nid).find g.fresh =
      some (pushedPackNode rnnId (n.inputs.getD 1 (VRef.gin 0))) := by
    rw [← hf2, hfind_pack', hB1v]
  -- general characterization of surviving original nodes
  have hfindc : ∀ c m0, c ≠ nid → c ≠ G2.fresh → g.find c = some m0 →
      (G6.destroy nid).find c = some { m0 with inputs :=
        ((if c = w.1 then (m0.inputs.map σ1).set w.2 A1 else m0.inputs.map σ1).map σ4).map σ5 } := by
    intro c m0 hcn hcf hm0
    rw [find_destroy, if_neg hcn, hG6f c, if_neg hcf, hG5f c, hG4f c, hG3f c, if_neg hcf,
        hG2f2 c, hG1f c, hm0]
    by_cases hcw : c = w.1
    · rw [if_pos hcw, if_pos hcw]
      simp only [Option.map_some']
      rfl
    · rw [if_neg hcw, if_neg hcw]
      simp only [Option.map_some']
      rfl
  -- nodup and id coverage of the result graph
  have hidsG6 : G6.ids = G3.ids := by
    rw [hG6, mem_ids_modifyNode, hG5, mem_ids_replaceAllUses, hG4, mem_ids_replaceAllUses]
  have hidsG3 : G3.ids = (G2.insertAfterId rnnId G2.fresh NP).ids := by
    rw [hG3]
    rfl
  have hnd' : (G6.destroy nid).ids.Nodup := by
    apply nodup_ids_destroy
    rw [hidsG6, hidsG3]
    apply nodup_ids_insertAfter
    · rwa [hidsG2]
    · exact hfreshnot
  have hids' : ∀ c, c ∈ (G6.destroy nid).ids → c = G2.fresh ∨ c ∈ g.ids := by
    intro c hc
    have h1 := (mem_ids_destroy G6 nid c).mp hc
    rw [hidsG6, hidsG3] at h1
    rcases (mem_ids_insertAfterId G2 rnnId G2.fresh NP c).mp h1.1 with h | h
    · exact Or.inl h
    · right; rwa [hidsG2] at h
  -- the rnn node's input slot in g
  have hrmem : (rnnId, rpos) ∈ g.usesOf (VRef.out nid 0) := by
    rw [huse]; exact List.mem_singleton.mpr rfl
  obtain ⟨rm, hrm_mem, hrm_get⟩ := (mem_usesOf_iff g (VRef.out nid 0) rnnId rpos).mp hrmem
  have hrm_find : g.find rnnId = some rm := find_of_mem_nodes g rnnId rm hnd hrm_mem
  have hrm_eq : rm = rnn := by
    have h' := hrnn
    rw [hrm_find, Option.some.injEq] at h'
    exact h'
  rw [hrm_eq] at hrm_get
  have hw2ne : w.1 = rnnId → w.2 ≠ rpos := by
    intro hcw hceq
    have h1 : wm = rnn := by
      have h' := hwm_find
      rw [hcw, hrnn, Option.some.injEq] at h'
      exact h'.symm
    rw [h1, hceq, hrm_get] at hwm_get
    rw [Option.some.injEq, VRef.out.injEq] at hwm_get
    exact absurd hwm_get.2 zero_ne_one
  have hσ1rnn_get : (rnn.mapInputs σ1).inputs.get? rpos =
      some (n.inputs.getD 0 (VRef.gin 0)) := by
    show (rnn.inputs.map σ1).get? rpos = _
    rw [List.get?_map, hrm_get, Option.map_some']
    congr 1
    rw [hσ1]
    exact hsubst_eq _ _
  have hG1rnn : G1.find rnnId = some (rnn.mapInputs σ1) := by
    rw [hG1f, hrnn, Option.map_some']
  obtain ⟨rn2, hG2rnn, hrn2get⟩ :
      ∃ rn2, G2.find rnnId = some rn2 ∧
        rn2.inputs.get? rpos = some (n.inputs.getD 0 (VRef.gin 0)) := by
    by_cases hcw : rnnId = w.1
    · refine ⟨{ rnn.mapInputs σ1 with inputs := (rnn.mapInputs σ1).inputs.set w.2 A1 }, ?_, ?_⟩
      · rw [hG2f2, if_pos hcw, hG1rnn, Option.map_some']
      · show ((rnn.mapInputs σ1).inputs.set w.2 A1).get? rpos = _
        rw [List.get?_set_ne A1 _ (hw2ne hcw.symm)]
        exact hσ1rnn_get
    · exact ⟨rnn.mapInputs σ1, by rw [hG2f2, if_neg hcw, hG1rnn], hσ1rnn_get⟩
  have hrnn_ne_fresh : rnnId ≠ G2.fresh := by rw [hf2]; omega
  have hG3rnn : G3.find rnnId = some rn2 := by rw [hG3f, if_neg hrnn_ne_fresh, hG2rnn]
  have hG4rnn : G4.find rnnId = some (rn2.mapInputs σ4) := by
    rw [hG4f, hG3rnn, Option.map_some']
  have hG5rnn : G5.find rnnId = some ((rn2.mapInputs σ4).mapInputs σ5) := by
    rw [hG5f, hG4rnn, Option.map_some']
  have hG6rnn : G6.find rnnId = some ((rn2.mapInputs σ4).mapInputs σ5) := by
    rw [hG6f, if_neg hrnn_ne_fresh, hG5rnn]
  have hrn45get : ((rn2.mapInputs σ4).mapInputs σ5).inputs.get? rpos =
      some (n.inputs.getD 0 (VRef.gin 0)) := by
    show ((rn2.inputs.map σ4).map σ5).get? rpos = _
    rw [List.get?_map, List.get?_map, hrn2get, Option.map_some', Option.map_some']
    congr 1
    rw [hσ4, hsubst_ne _ _ _ hin0_ne_rnn, hσ5, hsubst_ne _ _ _ hin0_ne_nid1]
  have c_inputAt : (G6.destroy nid).inputAt rnnId rpos =
      some (n.inputs.getD 0 (VRef.gin 0)) := by
    unfold Graph.inputAt
    rw [find_destroy, if_neg hne, hG6rnn]
    exact hrn45get
  -- graph order: the new pack node sits immediately after the rnn node
  set F4 : Nat × Node → Nat × Node := fun p => (p.1, p.2.mapInputs σ4) with hF4
  set F5 : Nat × Node → Nat × Node := fun p => (p.1, p.2.mapInputs σ5) with hF5
  set F6 : Nat × Node → Nat × Node := fun p =>
    if p.1 = G2.fresh then (p.1, { p.2 with inputs := p.2.inputs ++ [VRef.out rnnId 0, B1] })
    else p with hF6
  have hrn2mem : (rnnId, rn2) ∈ G2.nodes := mem_nodes_of_find G2 rnnId rn2 hG2rnn
  obtain ⟨qq, l2x, hdrop, hq1⟩ := dropWhile_split_at G2.nodes rnnId rn2 hrn2mem
  have hG3nodes : G3.nodes =
      G2.nodes.takeWhile (fun p => p.1 ≠ rnnId) ++ qq :: (G2.fresh, NP) :: l2x := by
    rw [hG3]
    show (G2.insertAfterId rnnId G2.fresh NP).nodes = _
    unfold Graph.insertAfterId
    rw [hdrop]
  have hG4nodes : G4.nodes = G3.nodes.map F4 := by rw [hF4, hG4, hσ4]; rfl
  have hG5nodes : G5.nodes = G4.nodes.map F5 := by rw [hF5, hG5, hσ5]; rfl
  have hG6nodes : G6.nodes = G5.nodes.map F6 := by rw [hF6, hG6]; rfl
  have hdstnodes : (G6.destroy nid).nodes = G6.nodes.filter (fun p => p.1 ≠ nid) := rfl
  have e6 : G6.nodes =
      ((((G2.nodes.takeWhile (fun p => p.1 ≠ rnnId)).map F4).map F5).map F6) ++
      F6 (F5 (F4 qq)) :: F6 (F5 (F4 (G2.fresh, NP))) :: (((l2x.map F4).map F5).map F6) := by
    rw [hG6nodes, hG5nodes, hG4nodes, hG3nodes]
    simp only [List.map_append, List.map_cons]
  have hmidq : F6 (F5 (F4 qq)) = (rnnId, (qq.2.mapInputs σ4).mapInputs σ5) := by
    simp only [hF4, hF5, hF6]
    rw [if_neg (show ¬(qq.1 = G2.fresh) from by rw [hq1]; exact hrnn_ne_fresh), hq1]
  have hmidnp : F6 (F5 (F4 (G2.fresh, NP))) = (G2.fresh, pushedPackNode rnnId B1) := by
    simp only [hF4, hF5, hF6]
    rw [hNPfix, hNPfix]
    split
    · rw [hNP]
      rfl
    · next hcond => exact absurd trivial hcond
  have e7 : (G6.destroy nid).nodes =
      (((((G2.nodes.takeWhile (fun p => p.1 ≠ rnnId)).map F4).map F5).map F6).filter
        (fun p => p.1 ≠ nid)) ++
      (rnnId, (qq.2.mapInputs σ4).mapInputs σ5) ::
      (G2.fresh, pushedPackNode rnnId B1) ::
      ((((l2x.map F4).map F5).map F6).filter (fun p => p.1 ≠ nid)) := by
    rw [hdstnodes, e6, hmidq, hmidnp, List.filter_append, List.filter_cons,
        if_pos (show (decide (rnnId ≠ nid)) = true from decide_eq_true hne),
        List.filter_cons,
        if_pos (show (decide (G2.fresh ≠ nid)) = true from decide_eq_true hfresh_ne_nid)]
  have c_order : ∃ l1 l2 rn, (G6.destroy nid).nodes =
      l1 ++ (rnnId, rn) :: (g.fresh, pushedPackNode rnnId (n.inputs.getD 1 (VRef.gin 0))) :: l2 :=
    ⟨(((((G2.nodes.takeWhile (fun p => p.1 ≠ rnnId)).map F4).map F5).map F6).filter
        (fun p => p.1 ≠ nid)),
     ((((l2x.map F4).map F5).map F6).filter (fun p => p.1 ≠ nid)),
     ((qq.2.mapInputs σ4).mapInputs σ5),
     by rw [e7, hB1v, hf2]⟩
  -- consumers of the new pack node's first output are the old consumers of the rnn output
  have c_uses : ∀ c i, (c, i) ∈ (G6.destroy nid).usesOf (VRef.out g.fresh 0) ↔
      (c, i) ∈ g.usesOf (VRef.out rnnId 0) := by
    intro c i
    rw [← hf2]
    constructor
    · intro h
      obtain ⟨m, hm_mem, hm_get⟩ := (mem_usesOf_iff _ _ c i).mp h
      have hm_find : (G6.destroy nid).find c = some m := find_of_mem_nodes _ c m hnd' hm_mem
      have hcid : c ∈ (G6.destroy nid).ids := mem_ids_of_find _ c m hm_find
      have hcn : c ≠ nid := ((mem_ids_destroy G6 nid c).mp hcid).2
      rcases hids' c hcid with hcf | hcg
      · exfalso
        rw [hcf, hfind_pack', Option.some.injEq] at hm_find
        rw [← hm_find] at hm_get
        rcases i with _ | _ | i
        · replace hm_get : some (VRef.out rnnId 0) = some (VRef.out G2.fresh 0) := hm_get
          rw [Option.some.injEq, VRef.out.injEq] at hm_get
          exact hrnn_ne_fresh hm_get.1
        · replace hm_get : some B1 = some (VRef.out G2.fresh 0) := hm_get
          rw [Option.some.injEq] at hm_get
          rw [hB1v] at hm_get
          have := hin1b G2.fresh 0 hm_get
          rw [hf2] at this
          exact absurd this (lt_irrefl _)
        · replace hm_get : (none : Option VRef) = some (VRef.out G2.fresh 0) := hm_get
          exact Option.noConfusion hm_get
      · obtain ⟨m0, hm0⟩ := find_of_mem_ids g c hcg
        have hcf : c ≠ G2.fresh := by rw [hf2]; have := hfr c hcg; omega
        have hfc := hfindc c m0 hcn hcf hm0
        rw [hm_find, Option.some.injEq] at hfc
        rw [hfc] at hm_get
        replace hm_get : (((if c = w.1 then (m0.inputs.map σ1).set w.2 A1
            else m0.inputs.map σ1).map σ4).map σ5).get? i = some (VRef.out G2.fresh 0) := hm_get
        rw [List.get?_map, List.get?_map] at hm_get
        rcases hy : (if c = w.1 then (m0.inputs.map σ1).set w.2 A1
            else m0.inputs.map σ1).get? i with _ | y
        · rw [hy] at hm_get; exact absurd hm_get (by simp)
        · rw [hy] at hm_get
          simp only [Option.map_some'] at hm_get
          rw [Option.some.injEq] at hm_get
          have hychar : y = A1 ∨ ∃ z, m0.inputs.get? i = some z ∧ y = σ1 z := by
            by_cases hcw : c = w.1
            · rw [if_pos hcw] at hy
              by_cases hiw : w.2 = i
              · rw [← hiw, List.get?_set_eq] at hy
                rcases hz : (m0.inputs.map σ1).get? w.2 with _ | z
                · rw [hz] at hy; exact absurd hy (by simp)
                · rw [hz] at hy
                  replace hy : some A1 = some y := hy
                  rw [Option.some.injEq] at hy
                  exact Or.inl hy.symm
              · rw [List.get?_set_ne A1 _ hiw, List.get?_map] at hy
                rcases hz : m0.inputs.get? i with _ | z
                · rw [hz] at hy; exact absurd hy (by simp)
                · rw [hz, Option.map_some', Option.some.injEq] at hy
                  exact Or.inr ⟨z, rfl, hy.symm⟩
            · rw [if_neg hcw, List.get?_map] at hy
              rcases hz : m0.inputs.get? i with _ | z
              · rw [hz] at hy; exact absurd hy (by simp)
              · rw [hz, Option.map_some', Option.some.injEq] at hy
                exact Or.inr ⟨z, rfl, hy.symm⟩
          have hσ4y : σ4 y = VRef.out G2.fresh 0 := by
            by_cases h5 : σ4 y = VRef.out nid 1
            · rw [h5, hσ5, hsubst_eq] at hm_get
              rw [VRef.out.injEq] at hm_get
              exact absurd hm_get.2 one_ne_zero
            · rwa [hσ5, hsubst_ne _ _ _ h5] at hm_get
          have hy_val : y = VRef.out rnnId 0 := by
            by_cases hy4 : y = VRef.out rnnId 0
            · exact hy4
            · exfalso
              rw [hσ4, hsubst_ne _ _ _ hy4] at hσ4y
              rcases hychar with hyA | ⟨z, hzget, hyz⟩
              · rw [hyA, hA1v] at hσ4y
                have := hin1b G2.fresh 0 hσ4y
                rw [hf2] at this
                exact absurd this (lt_irrefl _)
              · by_cases hz0 : z = VRef.out nid 0
                · rw [hyz, hσ1, hz0, hsubst_eq] at hσ4y
                  have := hin0b G2.fresh 0 hσ4y
                  rw [hf2] at this
                  exact absurd this (lt_irrefl _)
                · rw [hyz, hσ1, hsubst_ne _ _ _ hz0] at hσ4y
                  have hzb := hrefs (c, m0) (mem_nodes_of_find g c m0 hm0) z
                    (List.get?_mem hzget) G2.fresh 0 hσ4y
                  rw [hf2] at hzb
                  exact absurd hzb (lt_irrefl _)
          rcases hychar with hyA | ⟨z, hzget, hyz⟩
          · exfalso
            rw [hyA, hA1v] at hy_val
            exact hin1_ne_rnn hy_val
          · by_cases hz0 : z = VRef.out nid 0
            · exfalso
              have hyin0 : y = n.inputs.getD 0 (VRef.gin 0) := by
                rw [hyz, hz0, hσ1, hsubst_eq]
              rw [hyin0] at hy_val
              exact hin0_ne_rnn hy_val
            · have hzval : z = VRef.out rnnId 0 := by
                rw [hyz, hσ1, hsubst_ne _ _ _ hz0] at hy_val
                exact hy_val
              rw [hzval] at hzget
              exact (mem_usesOf_iff g (VRef.out rnnId 0) c i).mpr
                ⟨m0, mem_nodes_of_find g c m0 hm0, hzget⟩
    · intro h
      obtain ⟨m0, hm0_mem, hm0_get⟩ := (mem_usesOf_iff g (VRef.out rnnId 0) c i).mp h
      have hm0_find : g.find c = some m0 := find_of_mem_nodes g c m0 hnd hm0_mem
      have hcn : c ≠ nid := by
        intro hc
        have h' := hm0_find
        rw [hc, hn, Option.some.injEq] at h'
        exact hrnnn 0 (List.get?_mem (by rw [h']; exact hm0_get))
      have hcg : c ∈ g.ids := mem_ids_of_find g c m0 hm0_find
      have hcf : c ≠ G2.fresh := by rw [hf2]; have := hfr c hcg; omega
      have hfc := hfindc c m0 hcn hcf hm0_find
      apply (mem_usesOf_iff _ _ c i).mpr
      refine ⟨_, mem_nodes_of_find _ c _ hfc, ?_⟩
      show (((if c = w.1 then (m0.inputs.map σ1).set w.2 A1
          else m0.inputs.map σ1).map σ4).map σ5).get? i = some (VRef.out G2.fresh 0)
      rw [List.get?_map, List.get?_map]
      have hL : (if c = w.1 then (m0.inputs.map σ1).set w.2 A1
          else m0.inputs.map σ1).get? i = some (VRef.out rnnId 0) := by
        have hval : (m0.inputs.map σ1).get? i = some (VRef.out rnnId 0) := by
          rw [List.get?_map, hm0_get, Option.map_some']
          congr 1
          rw [hσ1]
          apply hsubst_ne
          intro hcontra
          rw [VRef.out.injEq] at hcontra
          exact hne hcontra.1
        by_cases hcw : c = w.1
        · rw [if_pos hcw]
          have hiw : w.2 ≠ i := by
            intro hcontra
            have hmw : m0 = wm := by
              have h' := hm0_find
              rw [hcw, hwm_find, Option.some.injEq] at h'
              exact h'.symm
            have h2 := hm0_get
            rw [hmw, ← hcontra, hwm_get] at h2
            rw [Option.some.injEq, VRef.out.injEq] at h2
            exact absurd h2.2 one_ne_zero
          rw [List.get?_set_ne A1 _ hiw]
          exact hval
        · rw [if_neg hcw]
          exact hval
      rw [hL, Option.map_some', Option.map_some']
      congr 1
      rw [hσ4, hsubst_eq, hσ5]
      apply hsubst_ne
      intro hcontra
      rw [VRef.out.injEq] at hcontra
      have h2 := hcontra.1
      rw [hf2] at h2
      omega
  -- consumers of the length output: either rewired to the length input or to the new pack
  have c_out1 : ∀ c i, (c, i) ∈ g.usesOf (VRef.out nid 1) →
      (G6.destroy nid).inputAt c i = some (n.inputs.getD 1 (VRef.gin 0)) ∨
      (G6.destroy nid).inputAt c i = some (VRef.out g.fresh 1) := by
    intro c i h
    obtain ⟨m0, hm0_mem, hm0_get⟩ := (mem_usesOf_iff g (VRef.out nid 1) c i).mp h
    have hm0_find : g.find c = some m0 := find_of_mem_nodes g c m0 hnd hm0_mem
    have hcn : c ≠ nid := by
      intro hc
      have h' := hm0_find
      rw [hc, hn, Option.some.injEq] at h'
      exact hselfn 1 (List.get?_mem (by rw [h']; exact hm0_get))
    have hcg : c ∈ g.ids := mem_ids_of_find g c m0 hm0_find
    have hcf : c ≠ G2.fresh := by rw [hf2]; have := hfr c hcg; omega
    have hfc := hfindc c m0 hcn hcf hm0_find
    have hIA : (G6.destroy nid).inputAt c i =
        (((if c = w.1 then (m0.inputs.map σ1).set w.2 A1
          else m0.inputs.map σ1).map σ4).map σ5).get? i := by
      unfold Graph.inputAt
      rw [hfc]
      rfl
    by_cases hset : c = w.1 ∧ w.2 = i
    · left
      rw [hIA, if_pos hset.1, ← hset.2, List.get?_map, List.get?_map, List.get?_set_eq]
      have hx : (m0.inputs.map σ1).get? w.2 = some (σ1 (VRef.out nid 1)) := by
        rw [List.get?_map, hset.2, hm0_get, Option.map_some']
      rw [hx]
      show some (σ5 (σ4 A1)) = some (n.inputs.getD 1 (VRef.gin 0))
      rw [hA1v, hσ4, hsubst_ne _ _ _ hin1_ne_rnn, hσ5, hsubst_ne _ _ _ hin1_ne_nid1]
    · right
      rw [hIA]
      have hL : (if c = w.1 then (m0.inputs.map σ1).set w.2 A1
          else m0.inputs.map σ1).get? i = some (VRef.out nid 1) := by
        have hval : (m0.inputs.map σ1).get? i = some (VRef.out nid 1) := by
          rw [List.get?_map, hm0_get, Option.map_some']
          congr 1
          rw [hσ1]
          apply hsubst_ne
          intro hcontra
          rw [VRef.out.injEq] at hcontra
          exact absurd hcontra.2 one_ne_zero
        by_cases hcw : c = w.1
        · rw [if_pos hcw]
          have hiw : w.2 ≠ i := fun hcontra => hset ⟨hcw, hcontra⟩
          rw [List.get?_set_ne A1 _ hiw]
          exact hval
        · rw [if_neg hcw]
          exact hval
      rw [List.get?_map, List.get?_map, hL, Option.map_some', Option.map_some', ← hf2]
      congr 1
      rw [hσ4]
      rw [hsubst_ne _ _ _ (show VRef.out nid 1 ≠ VRef.out rnnId 0 from by
        intro hcontra
        rw [VRef.out.injEq] at hcontra
        exact hne hcontra.1.symm)]
      rw [hσ5, hsubst_eq]
  exact ⟨G6.destroy nid, hstep, hfind_nid', c_pack, c_order, c_inputAt, c_uses, c_out1⟩


theorem pushPack_skip (g : Graph) (nid : Nat) (n : Node)
    (hn : g.find nid = some n)
    (huse : (g.usesOf (VRef.out nid 0)).length ≠ 1) :
    pushPackingPastRnnStep g nid = .ok g := by
  unfold pushPackingPastRnnStep
  simp only [hn]
  by_cases hk : n.kind = Kind.PackPadded
  · rw [if_pos hk, if_pos huse]
  · rw [if_neg hk]

theorem enopFold_ids_sub (l : List Nat) (g gr : Graph)
    (h : l.foldlM eliminateNopTransposeStep g = .ok gr) : ∀ m ∈ gr.ids, m ∈ g.ids := by
  intro m hm
  obtain ⟨nr, hf⟩ := find_of_mem_ids gr m hm
  obtain ⟨n0, hn0, _⟩ := enopFold_preserve l g gr h m nr hf
  exact mem_ids_of_find g m n0 hn0

/-- Claim C9: running eliminateNopTranspose immediately after a successful run is a
    no-op: the second run deletes nothing and returns the same graph. -/
theorem eliminateNopTranspose_idempotent (g g1 : Graph)
    (h : eliminateNopTranspose g = .ok g1) :
    eliminateNopTranspose g1 = .ok g1 := by
  unfold eliminateNopTranspose at h ⊢
  apply foldlM_ok_id
  intro a ha
  obtain ⟨nr, hf⟩ := find_of_mem_ids g1 a ha
  obtain ⟨n0, hn0, hk, hpm, hv⟩ := enopFold_preserve g.ids g g1 h a nr hf
  have hamem : a ∈ g.ids :=
    enopFold_ids_sub g.ids g g1 h a ha
  unfold eliminateNopTransposeStep
  simp only [hf]
  by_cases hkt : nr.kind = Kind.Transpose
  · obtain ⟨pm, hpm0, hnop⟩ := hv hamem (by rw [← hk]; exact hkt)
    rw [if_pos hkt]
    simp only [hpm, hpm0, hnop]
    rfl
  · rw [if_neg hkt]

/-- Claim C1 (amended): on from=[3], to=[3,4] the code returns fusable with axis 0:
    the leading-alignment loop matches the single dimension 3 against to[0]=3 and runs
    past the core, so fusibleExpandTo answers (true, some 0), not (false, none). -/
theorem fusibleExpandTo_single3_to_pair34 :
    fusibleExpandTo [3] [3, 4] = (true, some 0) := by
  simp [fusibleExpandTo, trimStart, trimEnd, trailingLoop, leadingLoop, idx]

/-- Counterexample to claim C1 as stated: fusibleExpandTo does not return
    (false, none) on from=[3], to=[3,4]. -/
theorem fusibleExpandTo_single3_spec_refuted :
    fusibleExpandTo [3] [3, 4] ≠ (false, none) := by
  have h : fusibleExpandTo [3] [3, 4] = (true, some 0) := by
    simp [fusibleExpandTo, trimStart, trimEnd, trailingLoop, leadingLoop, idx]
  rw [h]
  decide

/-- Claim C3: under the rank guard, fusibleExpandTo agrees with the spec's description:
    trim size-1 dims of from to a core, report (true, none) when the core aligns with the
    tail of to, else (true, some 0) when it aligns with the head, else (false, none);
    and the two worked examples of the spec hold. -/
theorem fusibleExpandTo_trim_align_spec :
    (∀ l t : List Int, l.length ≤ t.length → fusibleExpandTo l t = fusibleExpandToSpec l t) ∧
    fusibleExpandTo [5] [3, 4, 5] = (true, none) ∧
    fusibleExpandTo [1, 1, 768] [5, 1, 768] = (true, none) := by
  refine ⟨fun l t h => fusibleExpandTo_eq_spec l t h, ?_, ?_⟩
  · simp [fusibleExpandTo, trimStart, trimEnd, trailingLoop, leadingLoop, idx]
  · simp [fusibleExpandTo, trimStart, trimEnd, trailingLoop, leadingLoop, idx]

theorem fusibleExpandTo_trim_align_spec_witness :
    ([2, 3] : List Int).length ≤ ([2, 3] : List Int).length ∧
    fusibleExpandTo [2, 3] [2, 3] = fusibleExpandToSpec [2, 3] [2, 3] :=
  ⟨by decide, fusibleExpandTo_trim_align_spec.1 [2, 3] [2, 3] (by decide)⟩

/-- Claim C8: composeTransposes computes ret[i] = t2[t1[i]] pointwise, is associative
    on valid permutations of equal length, and the identity permutation is a left and
    right unit, in particular for every length from 1 to 8. -/
theorem composeTransposes_algebra :
    (∀ p1 p2 : List Int, isValidPerm p1 → isValidPerm p2 → p2.length = p1.length →
      ∀ i, i < p1.length →
        (composeTransposes p1 p2).getD i 0 = p2.getD (p1.getD i 0).toNat 0) ∧
    (∀ p1 p2 p3 : List Int, isValidPerm p1 → isValidPerm p2 → isValidPerm p3 →
      p2.length = p1.length → p3.length = p1.length →
      composeTransposes (composeTransposes p1 p2) p3 =
        composeTransposes p1 (composeTransposes p2 p3)) ∧
    (∀ p : List Int, isValidPerm p → 1 ≤ p.length → p.length ≤ 8 →
      composeTransposes p (idPerm p.length) = p ∧
      composeTransposes (idPerm p.length) p = p) := by
  refine ⟨?_, ?_, ?_⟩
  · intro p1 p2 h1 h2 hl i hi
    exact composeTransposes_getD p1 p2 i hi
  · intro p1 p2 p3 h1 h2 h3 hl2 hl3
    exact composeTransposes_assoc p1 p2 p3 hl2 h1
  · intro p hp h1 h8
    exact ⟨composeTransposes_id_right p hp, composeTransposes_id_left p⟩

theorem composeTransposes_algebra_witness :
    (composeTransposes [1, 0, 2] [0, 2, 1]).getD 0 0 =
      ([0, 2, 1] : List Int).getD (([1, 0, 2] : List Int).getD 0 0).toNat 0 ∧
    composeTransposes (composeTransposes [1, 0] [0, 1]) [1, 0] =
      composeTransposes [1, 0] (composeTransposes [0, 1] [1, 0]) ∧
    composeTransposes [2, 0, 1] (idPerm 3) = [2, 0, 1] :=
  ⟨composeTransposes_algebra.1 [1, 0, 2] [0, 2, 1] (by decide) (by decide) (by decide)
      0 (by decide),
   composeTransposes_algebra.2.1 [1, 0] [0, 1] [1, 0] (by decide) (by decide) (by decide)
      (by decide) (by decide),
   (composeTransposes_algebra.2.2 [2, 0, 1] (by decide) (by decide) (by decide)).1⟩

/-- Claim C10: when from has strictly more dimensions than to, fusibleExpandTo answers
    (false, none) immediately from its first guard, for every pair of shape lists. -/
theorem fusibleExpandTo_rank_guard (l t : List Int) (h : l.length > t.length) :
    fusibleExpandTo l t = (false, none) := by
  unfold fusibleExpandTo
  rw [if_pos h]

theorem fusibleExpandTo_rank_guard_witness :
    ([1, 2] : List Int).length > ([4] : List Int).length ∧
    fusibleExpandTo [1, 2] [4] = (false, none) :=
  ⟨by decide, fusibleExpandTo_rank_guard [1, 2] [4] (by decide)⟩


/-- Claim C2 (amended): when the expand's own input has no shape metadata, fuseBroadcast
    skips the candidate and leaves the graph unchanged; but when that metadata is present
    and the expand's output has none, the expect call fails with "expected TensorType"
    instead of skipping. -/
theorem fuseBroadcast_absent_metadata (g : Graph) (nid : Nat) (n : Node) (pid k : Nat)
    (p : Node) (ur : VRef)
    (hn : g.find nid = some n)
    (hbk : isBroadcastingKind n.kind = true)
    (hbc : n.broadcast.getD 0 = 0)
    (hax : n.axis = none)
    (hlast : n.inputs.getLast? = some (.out pid k))
    (hp : g.find pid = some p)
    (hpk : p.kind = .Expand)
    (hpin : p.inputs = [ur]) :
    (g.metaOf ur = none → fuseBroadcastStep g nid = .ok g) ∧
    ((g.metaOf ur).isSome → p.nOutputs = 1 → p.outMeta.getD 0 none = none →
      fuseBroadcastStep g nid = .error "expected TensorType") :=
  fuseBroadcastStep_meta_cases g nid n pid k p ur hn hbk hbc hax hlast hp hpk hpin

theorem fuseBroadcast_absent_metadata_witness :
    fuseBroadcastStep gC2skip 2 = .ok gC2skip ∧
    fuseBroadcastStep gC2err 2 = .error "expected TensorType" :=
  ⟨(fuseBroadcast_absent_metadata gC2skip 2 nC2addN 1 0 nC2expN (.out 0 0) (by decide)
      (by decide) (by decide) (by decide) (by decide) (by decide) (by decide) (by decide)).1
      (by decide),
   (fuseBroadcast_absent_metadata gC2err 2 nC2addE 1 0 nC2expE (.out 0 0) (by decide)
      (by decide) (by decide) (by decide) (by decide) (by decide) (by decide) (by decide)).2
      (by decide) (by decide) (by decide)⟩

/-- Counterexample to claim C2 as stated: with the expand input's shape known and the
    expand output's shape absent, the whole pass signals an error instead of skipping. -/
theorem fuseBroadcast_absent_metadata_error_case :
    fuseBroadcast gC2err = .error "expected TensorType" := by
  rfl

/-- Claim C5: a transpose fed by a transpose gets the composed permutation
    (inner first, then outer), its input is rewired to the inner transpose's input, and
    the inner transpose is deleted exactly when no use of it remains. -/
theorem fuseConsecutiveTransposes_fusion (g : Graph) (nid pid k : Nat) (n p : Node)
    (pp np : List Int) (pr : VRef)
    (hnd : g.ids.Nodup)
    (hn : g.find nid = some n) (hk : n.kind = .Transpose)
    (hin : n.inputs = [.out pid k])
    (hp : g.find pid = some p) (hpk : p.kind = .Transpose)
    (hppm : p.perm = some pp) (hnpm : n.perm = some np)
    (hok : composeOk pp np = true)
    (hpin : p.inputs = [pr])
    (hne : pid ≠ nid)
    (hpr : pr ≠ .out pid k) :
    ∃ g', fuseConsecutiveTransposesStep g nid = .ok g' ∧
      g'.find nid = some { n with perm := some (composeTransposes pp np), inputs := [pr] } ∧
      (g'.find pid = none ↔ ∀ c i m, g.find c = some m →
        m.inputs.get? i = some (.out pid k) → (c, i) = (nid, 0)) ∧
      (g'.find pid = none ∨ g'.find pid = some p) :=
  fctStep_spec g nid pid k n p pp np pr hnd hn hk hin hp hpk hppm hnpm hok hpin hne hpr

theorem fuseConsecutiveTransposes_fusion_witness :
    ∃ g', fuseConsecutiveTransposesStep gC5 2 = .ok g' ∧
      g'.find 2 = some { nC5outer with perm := some (composeTransposes [1, 0, 2] [0, 2, 1]), inputs := [.out 0 0] } ∧
      (g'.find 1 = none ↔ ∀ c i m, gC5.find c = some m →
        m.inputs.get? i = some (.out 1 0) → (c, i) = (2, 0)) ∧
      (g'.find 1 = none ∨ g'.find 1 = some nC5inner) :=
  fuseConsecutiveTransposes_fusion gC5 2 1 0 nC5outer nC5inner [1, 0, 2] [0, 2, 1] (.out 0 0)
    (by decide) (by decide) (by decide) (by decide) (by decide) (by decide) (by decide)
    (by decide) (by decide) (by decide) (by decide) (by decide)

/-- Claim C7: an identity-permutation transpose with a single produced input is removed:
    the step succeeds, the node count drops by exactly one, the node and every use of its
    output are gone, and every other consumer's input is rewired to the producer. -/
theorem eliminateNopTranspose_elim (g : Graph) (nid pid : Nat) (n p : Node) (pm : List Int)
    (hnd : g.ids.Nodup)
    (hn : g.find nid = some n) (hk : n.kind = .Transpose) (hpm : n.perm = some pm)
    (hnop : isNopTranspose pm = true) (hin : n.inputs = [.out pid 0])
    (hout : n.nOutputs = 1)
    (hp : g.find pid = some p) (hpo : p.nOutputs = 1) (hne : pid ≠ nid) :
    ∃ g', eliminateNopTransposeStep g nid = .ok g' ∧
      g'.nodes.length + 1 = g.nodes.length ∧
      g'.find nid = none ∧
      g'.usesOf (.out nid 0) = [] ∧
      (∀ c i r, c ≠ nid → g.inputAt c i = some r →
        g'.inputAt c i = some (subst (.out nid 0) (.out pid 0) r)) :=
  enopStep_elim g nid pid n p pm hnd hn hk hpm hnop hin hout hp hpo hne

theorem eliminateNopTranspose_elim_witness :
    ∃ g', eliminateNopTransposeStep gC7 1 = .ok g' ∧
      g'.nodes.length + 1 = gC7.nodes.length ∧
      g'.find 1 = none ∧
      g'.usesOf (.out 1 0) = [] ∧
      (∀ c i r, c ≠ 1 → gC7.inputAt c i = some r →
        g'.inputAt c i = some (subst (.out 1 0) (.out 0 0) r)) :=
  eliminateNopTranspose_elim gC7 1 0 nC7t nC7prod [0, 1, 2] (by decide) (by decide)
    (by decide) (by decide) (by decide) (by decide) (by decide) (by decide) (by decide)
    (by decide)

theorem eliminateNopTranspose_idempotent_witness :
    eliminateNopTranspose gC9 = .ok gC9r ∧ eliminateNopTranspose gC9r = .ok gC9r :=
  ⟨by rfl, eliminateNopTranspose_idempotent gC9 gC9r (by rfl)⟩


/-- Claim C6: the hidden-state input at position 5 of a recurrent node with at least
    6 inputs, and the cell-state input at position 6 of an LSTM with at least 7 inputs,
    are rewired away from a constant producer onto the output of the synthesized
    ConstantFill subgraph, and the constant is removed exactly when it had no other use. -/
theorem fixDefaultState_positions :
    (∀ (g : Graph) (nid : Nat) (n : Node) (pid k : Nat) (p : Node) (hs : Int),
      g.ids.Nodup → (∀ i ∈ g.ids, i < g.fresh) →
      g.find nid = some n → isRNNKind n.kind = true → 6 ≤ n.inputs.length →
      n.inputs.get? 5 = some (.out pid k) →
      g.find pid = some p → pid ≠ nid → p.kind = .Constant → n.hidden_size = some hs →
      ∃ g', fixDefaultRnnHiddenStateStep g nid = .ok g' ∧
        g'.inputAt nid 5 = some (.out (g.fresh + 8) 0) ∧
        (.out (g.fresh + 8) 0 : VRef) ≠ .out pid k ∧
        (g'.find (g.fresh + 8)).map Node.kind = some .ConstantFill ∧
        (g.usesOf (.out pid k) = [(nid, 5)] → g'.find pid = none) ∧
        ((∃ u ∈ g.usesOf (.out pid k), u ≠ (nid, 5)) → g'.find pid = some p)) ∧
    (∀ (g : Graph) (nid : Nat) (n : Node) (pid k : Nat) (p : Node) (hs : Int),
      g.ids.Nodup → (∀ i ∈ g.ids, i < g.fresh) →
      g.find nid = some n → n.kind = .LSTM → 7 ≤ n.inputs.length →
      n.inputs.get? 6 = some (.out pid k) →
      g.find pid = some p → pid ≠ nid → p.kind = .Constant → n.hidden_size = some hs →
      ∃ g', fixDefaultLstmCellStateStep g nid = .ok g' ∧
        g'.inputAt nid 6 = some (.out (g.fresh + 8) 0) ∧
        (.out (g.fresh + 8) 0 : VRef) ≠ .out pid k ∧
        (g'.find (g.fresh + 8)).map Node.kind = some .ConstantFill ∧
        (g.usesOf (.out pid k) = [(nid, 6)] → g'.find pid = none) ∧
        ((∃ u ∈ g.usesOf (.out pid k), u ≠ (nid, 6)) → g'.find pid = some p)) := by
  constructor
  · intro g nid n pid k p hs hnd hfr hn hrk hlen hini hp hpn hkind hhs
    obtain ⟨g', hstep0, h1, h2, h3, h4, h5, h6, h7⟩ :=
      fixState_spec g nid 5 n pid k p hs hnd hfr hn hini (by omega) hp hpn hkind hhs
    refine ⟨g', ?_, h1, h2, h3, h6, h7⟩
    unfold fixDefaultRnnHiddenStateStep
    simp only [hn]
    rw [if_pos hrk, if_neg (show ¬(n.inputs.length < 6) from by omega), hstep0]
  · intro g nid n pid k p hs hnd hfr hn hlk hlen hini hp hpn hkind hhs
    obtain ⟨g', hstep0, h1, h2, h3, h4, h5, h6, h7⟩ :=
      fixState_spec g nid 6 n pid k p hs hnd hfr hn hini (by omega) hp hpn hkind hhs
    refine ⟨g', ?_, h1, h2, h3, h6, h7⟩
    unfold fixDefaultLstmCellStateStep
    simp only [hn]
    rw [if_pos hlk, if_neg (show ¬(n.inputs.length < 7) from by omega), hstep0]

theorem fixDefaultState_positions_witness :
    (∃ g', fixDefaultRnnHiddenStateStep gC6a 1 = .ok g' ∧
      g'.inputAt 1 5 = some (.out (gC6a.fresh + 8) 0) ∧
      (.out (gC6a.fresh + 8) 0 : VRef) ≠ .out 0 0 ∧
      (g'.find (gC6a.fresh + 8)).map Node.kind = some .ConstantFill ∧
      (gC6a.usesOf (.out 0 0) = [(1, 5)] → g'.find 0 = none) ∧
      ((∃ u ∈ gC6a.usesOf (.out 0 0), u ≠ (1, 5)) → g'.find 0 = some nC6const)) ∧
    (∃ g', fixDefaultLstmCellStateStep gC6b 1 = .ok g' ∧
      g'.inputAt 1 6 = some (.out (gC6b.fresh + 8) 0) ∧
      (.out (gC6b.fresh + 8) 0 : VRef) ≠ .out 0 0 ∧
      (g'.find (gC6b.fresh + 8)).map Node.kind = some .ConstantFill ∧
      (gC6b.usesOf (.out 0 0) = [(1, 6)] → g'.find 0 = none) ∧
      ((∃ u ∈ gC6b.usesOf (.out 0 0), u ≠ (1, 6)) → g'.find 0 = some nC6lconst)) :=
  ⟨fixDefaultState_positions.1 gC6a 1 nC6rnn 0 0 nC6const 4 (by decide) (by decide)
      (by decide) (by decide) (by decide) (by decide) (by decide) (by decide) (by decide)
      (by decide),
   fixDefaultState_positions.2 gC6b 1 nC6lstm 0 0 nC6lconst 3 (by decide) (by decide)
      (by decide) (by decide) (by decide) (by decide) (by decide) (by decide) (by decide)
      (by decide)⟩

/-- Claim C4: a packing node whose first output has exactly one consumer, a recurrent
    node, is pushed past it: the packing node is deleted, a new PackPadded node sits
    immediately after the recurrent node, the recurrent node reads the packing node's
    data input, the new node's first output has exactly the old consumers of the
    recurrent output, and each old consumer of the length output now reads either the
    length input or the new node's second output; with more than one consumer the step
    leaves the graph unchanged. -/
theorem pushPackingPastRnn_commutation :
    (∀ (g : Graph) (nid rnnId rpos : Nat) (n rnn : Node),
      g.ids.Nodup → (∀ i ∈ g.ids, i < g.fresh) →
      (∀ q ∈ g.nodes, ∀ r ∈ q.2.inputs, refBound g.fresh r = true) →
      g.find nid = some n → n.kind = .PackPadded → n.nOutputs = 2 → n.inputs.length = 2 →
      g.usesOf (.out nid 0) = [(rnnId, rpos)] →
      g.find rnnId = some rnn → isRNNKind rnn.kind = true → rnnId ≠ nid →
      noInputFrom nid n = true → noInputFrom rnnId n = true →
      g.usesOf (.out nid 1) ≠ [] →
      ∃ g', pushPackingPastRnnStep g nid = .ok g' ∧
        g'.find nid = none ∧
        g'.find g.fresh = some (pushedPackNode rnnId (n.inputs.getD 1 (.gin 0))) ∧
        (∃ l1 l2 rn, g'.nodes =
          l1 ++ (rnnId, rn) :: (g.fresh, pushedPackNode rnnId (n.inputs.getD 1 (.gin 0))) :: l2) ∧
        g'.inputAt rnnId rpos = some (n.inputs.getD 0 (.gin 0)) ∧
        (∀ c i, (c, i) ∈ g'.usesOf (.out g.fresh 0) ↔ (c, i) ∈ g.usesOf (.out rnnId 0)) ∧
        (∀ c i, (c, i) ∈ g.usesOf (.out nid 1) →
          g'.inputAt c i = some (n.inputs.getD 1 (.gin 0)) ∨
          g'.inputAt c i = some (.out g.fresh 1))) ∧
    (∀ (g : Graph) (nid : Nat) (n : Node), g.find nid = some n →
      (g.usesOf (.out nid 0)).length ≠ 1 → pushPackingPastRnnStep g nid = .ok g) :=
  ⟨fun g nid rnnId rpos n rnn hnd hfr hrefsB hn hnk hno hni huse hrnn hrk hne hselfnB
      hrnnnB huse1 =>
    pushPack_transform g nid rnnId rpos n rnn hnd hfr hrefsB hn hnk hno hni huse hrnn hrk
      hne hselfnB hrnnnB huse1,
   fun g nid n hn huse => pushPack_skip g nid n hn huse⟩

theorem pushPackingPastRnn_commutation_witness :
    (∃ g', pushPackingPastRnnStep gC4 1 = .ok g' ∧
      g'.find 1 = none ∧
      g'.find gC4.fresh = some (pushedPackNode 2 (nC4pack.inputs.getD 1 (.gin 0))) ∧
      (∃ l1 l2 rn, g'.nodes =
        l1 ++ (2, rn) :: (gC4.fresh, pushedPackNode 2 (nC4pack.inputs.getD 1 (.gin 0))) :: l2) ∧
      g'.inputAt 2 0 = some (nC4pack.inputs.getD 0 (.gin 0)) ∧
      (∀ c i, (c, i) ∈ g'.usesOf (.out gC4.fresh 0) ↔ (c, i) ∈ gC4.usesOf (.out 2 0)) ∧
      (∀ c i, (c, i) ∈ gC4.usesOf (.out 1 1) →
        g'.inputAt c i = some (nC4pack.inputs.getD 1 (.gin 0)) ∨
        g'.inputAt c i = some (.out gC4.fresh 1))) ∧
    pushPackingPastRnnStep gC4multi 1 = .ok gC4multi :=
  ⟨pushPackingPastRnn_commutation.1 gC4 1 2 0 nC4pack nC4rnn (by decide) (by decide)
      (by decide) (by decide) (by decide) (by decide) (by decide) (by decide) (by decide)
      (by decide) (by decide) (by decide) (by decide) (by decide),
   pushPackingPastRnn_commutation.2 gC4multi 1 nC4m (by decide) (by decide)⟩

end OnnxPeephole
